import Mathlib

set_option linter.unusedSectionVars false

/-!
# rflash: a ray-casting maze renderer (`src/main.cpp`)

A shallow embedding of the maze generator, the texture synthesiser, the
movement controller and the ray caster of `main.cpp`, followed by the
properties of the specification that were checked against it.

Conventions of the embedding.

* `int` values are `Int`; `uint32_t` pixels are `Nat` (all values that occur
  are below `2 ^ 32`).
* `double` values are elements of an arbitrary linearly ordered field `α` with
  a floor function (exact arithmetic); `ℚ` gives executable instances and `ℝ`
  the statements over the reals.  The value `+inf` produced by
  `fabs (1 / 0.0)` is the constructor `Dist.inf`.
* `game->map` is a function of its two indices.  Indices inside
  `0 .. MAP_WIDTH-1` × `0 .. MAP_HEIGHT-1` are the cells of the array; the
  value at any other index stands for whatever an out-of-range access would
  read, and is never constrained.
* `rand ()` is a stream `Nat → Nat` (the C library returns values in
  `0 .. RAND_MAX`) together with the number of draws made so far.
-/

namespace RFlash

/-! ## Constants -/

def WINDOW_WIDTH : Int := 1920
def WINDOW_HEIGHT : Int := 1080
def MAP_WIDTH : Int := 50
def MAP_HEIGHT : Int := 50
def TEXTURE_SIZE : Nat := 64
def NUM_TEXTURES : Nat := 4

/-! ## The grid -/

/-- The array `game->map`, as a function of its two indices. -/
abbrev Grid := Int → Int → Int

/-- Indices that address a cell of `map[MAP_WIDTH][MAP_HEIGHT]`. -/
def inBounds (x y : Int) : Prop := 0 ≤ x ∧ x < MAP_WIDTH ∧ 0 ≤ y ∧ y < MAP_HEIGHT

instance (x y : Int) : Decidable (inBounds x y) := by
  unfold inBounds; infer_instance

/-- Cells of the outer ring. -/
def onRing (x y : Int) : Prop :=
  inBounds x y ∧ (x = 0 ∨ x = MAP_WIDTH - 1 ∨ y = 0 ∨ y = MAP_HEIGHT - 1)

instance (x y : Int) : Decidable (onRing x y) := by
  unfold onRing; infer_instance

/-- A cell is occupied when it holds a wall code `1 .. K`; this is the test
`map[mapX][mapY] > 0` of `renderFrame`. -/
def occupied (g : Grid) (x y : Int) : Prop := 0 < g x y

instance (g : Grid) (x y : Int) : Decidable (occupied g x y) := by
  unfold occupied; infer_instance

/-- The border invariant: every cell of the outer ring is occupied. -/
def ringOccupied (g : Grid) : Prop := ∀ x y, onRing x y → occupied g x y

/-- Every ring cell holds the stamped value `1`. -/
def ringStamped (g : Grid) : Prop := ∀ x y, onRing x y → g x y = 1

/-- The assignment `map[x][y] = v`. -/
def setCell (g : Grid) (x y v : Int) : Grid :=
  fun a b => if a = x ∧ b = y then v else g a b

/-- The call `memset (game->map, 0, sizeof (game->map))`: every cell of the
array becomes `0`. -/
def clearMap (g : Grid) : Grid :=
  fun a b => if inBounds a b then 0 else g a b

/-! ## generateMaze -/

/-- The map under construction and the number of `rand ()` calls made. -/
structure MazeState where
  map : Grid
  draws : Nat

/-- One call of `rand ()`: the next value of the stream. -/
def draw (rand : Nat → Nat) (s : MazeState) : Nat × MazeState :=
  (rand s.draws, { s with draws := s.draws + 1 })

/-- The table `int dx[] = { 1, 0, -1, 0 }`, read at `dir = rand () % 4`. -/
def dx (dir : Nat) : Int :=
  match dir with
  | 0 => 1
  | 1 => 0
  | 2 => -1
  | _ => 0

/-- The table `int dy[] = { 0, 1, 0, -1 }`, read at `dir = rand () % 4`. -/
def dy (dir : Nat) : Int :=
  match dir with
  | 0 => 0
  | 1 => 1
  | 2 => 0
  | _ => -1

/-- The loop `for (int x = 0; x < MAP_WIDTH; x++)` stamping rows `0` and
`MAP_HEIGHT - 1`. -/
def stampColumns (g : Grid) : Grid :=
  (List.range 50).foldl
    (fun g (x : Nat) => setCell (setCell g x 0 1) x (MAP_HEIGHT - 1) 1) g

/-- The loop `for (int y = 0; y < MAP_HEIGHT; y++)` stamping columns `0` and
`MAP_WIDTH - 1`. -/
def stampRows (g : Grid) : Grid :=
  (List.range 50).foldl
    (fun g (y : Nat) => setCell (setCell g 0 y 1) (MAP_WIDTH - 1) y 1) g

/-- The body of `for (int k = 1; k <= len; k++)`: one cell of an arm. -/
def armCell (rand : Nat → Nat) (i j : Int) (dir : Nat) (s : MazeState) (k : Nat) :
    MazeState :=
  let newX := i + dx dir * k
  let newY := j + dy dir * k
  if newX > 0 ∧ newX < MAP_WIDTH - 1 ∧ newY > 0 ∧ newY < MAP_HEIGHT - 1 then
    let (v, s) := draw rand s
    { s with map := setCell s.map newX newY ((v % NUM_TEXTURES : Nat) + 1) }
  else s

/-- The body of the two nested pillar loops at the seed cell `(i, j)`. -/
def pillar (rand : Nat → Nat) (i j : Int) (s : MazeState) : MazeState :=
  let (v0, s) := draw rand s
  if v0 % 3 = 0 then
    let (v1, s) := draw rand s
    let s := { s with map := setCell s.map i j ((v1 % NUM_TEXTURES : Nat) + 1) }
    let (v2, s) := draw rand s
    if v2 % 2 = 0 then
      let (v3, s) := draw rand s
      let dir := v3 % 4
      let (v4, s) := draw rand s
      let len := v4 % 3 + 1
      (List.range' 1 len).foldl (armCell rand i j dir) s
    else s
  else s

/-- The values `2, 4, .., 46` taken by `i` in
`for (int i = 2; i < MAP_WIDTH - 2; i += 2)` (and likewise by `j`). -/
def seedCoords : List Int := (List.range 23).map (fun (k : Nat) => 2 * (k : Int) + 2)

/-- The loop `for (int j = 2; j < MAP_HEIGHT - 2; j += 2)` at a fixed `i`. -/
def pillarRow (rand : Nat → Nat) (s : MazeState) (i : Int) : MazeState :=
  seedCoords.foldl (fun s j => pillar rand i j s) s

/-- The function `generateMaze`; `g` is the previous content of the map. -/
def generateMaze (rand : Nat → Nat) (g : Grid) : Grid :=
  let g := clearMap g
  let g := stampColumns g
  let g := stampRows g
  let s := seedCoords.foldl (pillarRow rand) { map := g, draws := 0 }
  let g := s.map
  let g := setCell g 1 1 0
  let g := setCell g 1 2 0
  setCell g 2 1 0

/-! ## generateTextures -/

/-- The array `game->textures`, as a function of texture id and sample index. -/
abbrev Textures := Nat → Nat → Nat

/-- The value of `color` computed by the `switch (t)` for the sample `(x, y)`. -/
def texel (t x y : Nat) : Nat :=
  let color := 0xFF000000
  match t with
  | 0 => if x % 16 < 2 ∨ y % 16 < 2 then color ||| 0x444444 else color ||| 0x993333
  | 1 => color ||| (if (x ^^^ y) % 8 = 0 then 0x666666 else 0x888888)
  | 2 => color ||| (if (x / 4 + y / 4) % 2 ≠ 0 then 0x8B4513 else 0x654321)
  | 3 =>
    let val := (x * y) % 64 + 128
    color ||| ((val <<< 16) ||| (val <<< 8) ||| val)
  | _ => color

/-- The assignment `textures[t][i] = v`. -/
def setTexel (tex : Textures) (t i v : Nat) : Textures :=
  fun t' i' => if t' = t ∧ i' = i then v else tex t' i'

/-- The function `generateTextures`; `tex` is the previous content. -/
def generateTextures (tex : Textures) : Textures :=
  (List.range NUM_TEXTURES).foldl (fun tex t =>
    (List.range TEXTURE_SIZE).foldl (fun tex x =>
      (List.range TEXTURE_SIZE).foldl (fun tex y =>
        setTexel tex t (y * TEXTURE_SIZE + x) (texel t x y)) tex) tex) tex

/-- The packed pixel with alpha `a`, red `r`, green `g` and blue `b` (bytes). -/
def argb (a r g b : Nat) : Nat := a * 2 ^ 24 + r * 2 ^ 16 + g * 2 ^ 8 + b

/-- The sample `(x, y)` of texture `t` as the specification describes it:
brick, stone, wood and metal. -/
def texelSpec (t x y : Nat) : Nat :=
  if t = 0 then (if x % 16 < 2 ∨ y % 16 < 2 then 0xFF444444 else 0xFF993333)
  else if t = 1 then (if (x ^^^ y) % 8 = 0 then 0xFF666666 else 0xFF888888)
  else if t = 2 then (if (x / 4 + y / 4) % 2 = 1 then 0xFF8B4513 else 0xFF654321)
  else argb 0xFF ((x * y) % 64 + 128) ((x * y) % 64 + 128) ((x * y) % 64 + 128)

/-! ## The player and handleInput -/

/-- The struct `Player`. -/
structure Player (α : Type) where
  posX : α
  posY : α
  dirX : α
  dirY : α
  planeX : α
  planeY : α
  moveSpeed : α
  rotSpeed : α
  stamina : α
  sprinting : Bool

/-- The keyboard state read by `handleInput` (scancodes W, S, A, D, LSHIFT). -/
structure Keys where
  w : Bool
  s : Bool
  a : Bool
  d : Bool
  lshift : Bool

section Field

variable {α : Type} [LinearOrderedField α] [FloorRing α]

/-- The conversion `(int) x` of a `double`: truncation toward zero. It is the
source's conversion for a value within the range of `int`; beyond that range
the source's conversion is undefined. -/
def toInt (x : α) : Int := if 0 ≤ x then ⌊x⌋ else ⌈x⌉

/-- The player as initialised by `initGame`. -/
def initPlayer : Player α :=
  { posX := 3 / 2, posY := 3 / 2, dirX := 1, dirY := 0, planeX := 0, planeY := 66 / 100,
    moveSpeed := 5 / 100, rotSpeed := 3 / 100, stamina := 100, sprinting := false }

/-- The two guarded assignments of a move toward `(newX, newY)`, together with
the two cells of the map that the guards read, in order. The source reads
`map` without a range check: the model agrees with it where both indices of
each read are within `0 .. 49`, which the properties of the collision tests
establish from a bound on the step of the frame. -/
def translate (g : Grid) (p : Player α) (newX newY : α) : Player α × List (Int × Int) :=
  let c1 := (toInt newX, toInt p.posY)
  let p := if g c1.1 c1.2 = 0 then { p with posX := newX } else p
  let c2 := (toInt p.posX, toInt newY)
  let p := if g c2.1 c2.2 = 0 then { p with posY := newY } else p
  (p, [c1, c2])

/-- The rotation block of `handleInput`, with `c = cos (angle)` and
`s = sin (angle)`. -/
def rotate (c s : α) (p : Player α) : Player α :=
  let oldDirX := p.dirX
  let p := { p with dirX := p.dirX * c - p.dirY * s }
  let p := { p with dirY := oldDirX * s + p.dirY * c }
  let oldPlaneX := p.planeX
  let p := { p with planeX := p.planeX * c - p.planeY * s }
  { p with planeY := oldPlaneX * s + p.planeY * c }

/-- The effective `moveSpeed` local of `handleInput`. -/
def stepLength (p : Player α) (dt : α) : α :=
  p.moveSpeed * (if p.sprinting then 2 else 1) * dt * 60

/-- The assignment `player.sprinting = keys[LSHIFT] && player.stamina > 0`. -/
def withSprint (keys : Keys) (p : Player α) : Player α :=
  { p with sprinting := keys.lshift && decide (p.stamina > 0) }

/-- The block `// Move forward` of `handleInput`, with the cells it reads. -/
def moveForward (g : Grid) (keys : Keys) (moveSpeed : α) (p : Player α) :
    Player α × List (Int × Int) :=
  if keys.w then
    translate g p (p.posX + p.dirX * moveSpeed) (p.posY + p.dirY * moveSpeed)
  else (p, [])

/-- The block `// Move backward` of `handleInput`, with the cells it reads. -/
def moveBackward (g : Grid) (keys : Keys) (moveSpeed : α) (p : Player α) :
    Player α × List (Int × Int) :=
  if keys.s then
    translate g p (p.posX - p.dirX * moveSpeed) (p.posY - p.dirY * moveSpeed)
  else (p, [])

/-- The block `// Rotate right` of `handleInput` (key D). -/
def rotateRight (cos sin : α → α) (keys : Keys) (rotSpeed : α) (p : Player α) : Player α :=
  if keys.d then rotate (cos rotSpeed) (sin rotSpeed) p else p

/-- The block `// Rotate left` of `handleInput` (key A). -/
def rotateLeft (cos sin : α → α) (keys : Keys) (rotSpeed : α) (p : Player α) : Player α :=
  if keys.a then rotate (cos (-rotSpeed)) (sin (-rotSpeed)) p else p

/-- The function `handleInput` on the player (`dt` is `game->deltaTime`; `cos`
and `sin` are the library functions), together with the cells of the map read
by the collision tests, in order. -/
def handleInputTraced (cos sin : α → α) (g : Grid) (keys : Keys) (dt : α) (p : Player α) :
    Player α × List (Int × Int) :=
  let p := withSprint keys p
  let moveSpeed := stepLength p dt
  let rotSpeed := p.rotSpeed * dt * 60
  let (p, r1) := moveForward g keys moveSpeed p
  let (p, r2) := moveBackward g keys moveSpeed p
  let p := rotateRight cos sin keys rotSpeed p
  let p := rotateLeft cos sin keys rotSpeed p
  (p, r1 ++ r2)

/-- The player after `handleInput`. -/
def handleInput (cos sin : α → α) (g : Grid) (keys : Keys) (dt : α) (p : Player α) :
    Player α :=
  (handleInputTraced cos sin g keys dt p).1

/-- The cells of the map read by the collision tests of `handleInput`. -/
def cellsTested (cos sin : α → α) (g : Grid) (keys : Keys) (dt : α) (p : Player α) :
    List (Int × Int) :=
  (handleInputTraced cos sin g keys dt p).2

/-- The function `updatePlayerStamina`. -/
def updatePlayerStamina (dt : α) (p : Player α) : Player α :=
  if p.sprinting then
    let p := { p with stamina := p.stamina - 30 * dt }
    if p.stamina < 0 then { p with stamina := 0 } else p
  else
    let p := { p with stamina := p.stamina + 10 * dt }
    if p.stamina > 100 then { p with stamina := 100 } else p

/-- The player part of one iteration of the main loop: `handleInput` followed
by `updatePlayerStamina`, for the keys held and the elapsed time of the frame. -/
def frame (cos sin : α → α) (g : Grid) (p : Player α) (f : Keys × α) : Player α :=
  updatePlayerStamina f.2 (handleInput cos sin g f.1 f.2 p)

/-- A run of the main loop over a sequence of frames. -/
def runFrames (cos sin : α → α) (g : Grid) (p : Player α) (fs : List (Keys × α)) :
    Player α :=
  fs.foldl (frame cos sin g) p

/-- A run of `handleInput` alone over a sequence of frames. -/
def runInputs (cos sin : α → α) (g : Grid) (p : Player α) (fs : List (Keys × α)) :
    Player α :=
  fs.foldl (fun p f => handleInput cos sin g f.1 f.2 p) p

/-- The position `(x, y)` lies in an empty cell of the grid. -/
def inEmptyCell (g : Grid) (x y : α) : Prop :=
  inBounds (toInt x) (toInt y) ∧ g (toInt x) (toInt y) = 0

/-- The players `p` and `q` have facing and camera-plane vectors of the same
squared lengths and the same dot product. -/
def sameGeometry (p q : Player α) : Prop :=
  q.dirX ^ 2 + q.dirY ^ 2 = p.dirX ^ 2 + p.dirY ^ 2 ∧
    q.planeX ^ 2 + q.planeY ^ 2 = p.planeX ^ 2 + p.planeY ^ 2 ∧
    q.dirX * q.planeX + q.dirY * q.planeY = p.dirX * p.planeX + p.dirY * p.planeY

end Field

/-! ## renderFrame: the DDA loop -/

/-- The values of `sideDistX`, `deltaDistX`, ..: a finite distance, or the
`+inf` that `fabs (1 / rayDir)` yields for a zero component. -/
inductive Dist (α : Type) where
  | fin : α → Dist α
  | inf : Dist α

section Ray

variable {α : Type} [LinearOrderedField α] [FloorRing α]

/-- The comparison `a < b` of two distances. -/
def Dist.lt : Dist α → Dist α → Bool
  | .fin a, .fin b => decide (a < b)
  | .fin _, .inf => true
  | .inf, _ => false

/-- The sum `a + b` of two distances. -/
def Dist.add : Dist α → Dist α → Dist α
  | .fin a, .fin b => .fin (a + b)
  | _, _ => .inf

/-- The product `a * d` of a finite factor and a distance. Where `d` is `+inf`
(a zero ray component) the factor is `mapX + 1.0 - posX`, which is positive, so
the product is `+inf`. -/
def Dist.scale (a : α) : Dist α → Dist α
  | .fin d => .fin (a * d)
  | .inf => .inf

/-- The expression `fabs (1 / d)`. -/
def deltaDist (d : α) : Dist α := if d = 0 then .inf else .fin |1 / d|

/-- The locals of the DDA loop. `side` is unset before the first iteration
(shown as `0`) and assigned by every iteration. -/
structure DDA (α : Type) where
  mapX : Int
  mapY : Int
  sideDistX : Dist α
  sideDistY : Dist α
  side : Int

/-- The first statement of the loop body: the step to the next grid line. -/
def ddaStep (stepX stepY : Int) (deltaDistX deltaDistY : Dist α) (s : DDA α) : DDA α :=
  if s.sideDistX.lt s.sideDistY then
    { s with sideDistX := s.sideDistX.add deltaDistX, mapX := s.mapX + stepX, side := 0 }
  else
    { s with sideDistY := s.sideDistY.add deltaDistY, mapY := s.mapY + stepY, side := 1 }

/-- The loop `while (hit == 0)`, run for at most `fuel` iterations: the locals
on exit and the cells of the map read, in order; `none` when `fuel`
iterations did not reach a cell with `map[mapX][mapY] > 0`. -/
def ddaLoop (g : Grid) (stepX stepY : Int) (deltaDistX deltaDistY : Dist α) :
    Nat → DDA α → Option (DDA α × List (Int × Int))
  | 0, _ => none
  | fuel + 1, s =>
    let s := ddaStep stepX stepY deltaDistX deltaDistY s
    if g s.mapX s.mapY > 0 then some (s, [(s.mapX, s.mapY)])
    else
      (ddaLoop g stepX stepY deltaDistX deltaDistY fuel s).map
        (fun r => (r.1, (s.mapX, s.mapY) :: r.2))

/-- The value of `stepX` (or `stepY`) chosen from the sign of the ray
component. -/
def stepOf (rayDir : α) : Int := if rayDir < 0 then -1 else 1

/-- The initial `sideDistX` (or `sideDistY`) for the position `pos` in the
cell `cell`. -/
def sideDist0 (pos : α) (cell : Int) (rayDir : α) : Dist α :=
  if rayDir < 0 then (deltaDist rayDir).scale (pos - cell)
  else (deltaDist rayDir).scale (cell + 1 - pos)

/-- The locals on entry to the DDA loop for a ray from `(posX, posY)`. -/
def ddaInit (posX posY rayDirX rayDirY : α) : DDA α :=
  { mapX := toInt posX, mapY := toInt posY,
    sideDistX := sideDist0 posX (toInt posX) rayDirX,
    sideDistY := sideDist0 posY (toInt posY) rayDirY,
    side := 0 }

/-- The DDA of `renderFrame` for one ray: set-up and loop. -/
def castRay (g : Grid) (posX posY rayDirX rayDirY : α) (fuel : Nat) :
    Option (DDA α × List (Int × Int)) :=
  ddaLoop g (stepOf rayDirX) (stepOf rayDirY) (deltaDist rayDirX) (deltaDist rayDirY)
    fuel (ddaInit posX posY rayDirX rayDirY)

/-- The `cameraX` of screen column `x`. -/
def cameraX (x : Int) : α := 2 * (x : α) / (WINDOW_WIDTH : α) - 1

/-- The ray direction of screen column `x`. -/
def rayDir (p : Player α) (x : Int) : α × α :=
  (p.dirX + p.planeX * cameraX x, p.dirY + p.planeY * cameraX x)

/-- The number of steps the DDA can still take from an interior cell before one
coordinate reaches the ring: the distance to the ring in the direction of
`stepX` plus the distance in the direction of `stepY`. -/
def stepsLeft (stepX stepY : Int) (s : DDA α) : Nat :=
  (if stepX = 1 then 48 - s.mapX else s.mapX - 1).toNat +
    (if stepY = 1 then 48 - s.mapY else s.mapY - 1).toNat

end Ray

/-! ## renderFrame: the pixels of one column -/

/-- The array `game->screenBuffer`, as a function of the pixel index. -/
abbrev FrameBuffer := Int → Nat

/-- The assignment `screenBuffer[i] = v`. -/
def setPixel (buf : FrameBuffer) (i : Int) (v : Nat) : FrameBuffer :=
  fun j => if j = i then v else buf j

/-- The call `memset (game->screenBuffer, 0, ..)` at the start of a frame. -/
def clearBuffer (buf : FrameBuffer) : FrameBuffer :=
  fun j => if 0 ≤ j ∧ j < WINDOW_WIDTH * WINDOW_HEIGHT then 0 else buf j

/-- The clipped `drawStart` for a wall of height `lineHeight`. -/
def drawStart (lineHeight : Int) : Int :=
  let d := Int.tdiv (-lineHeight) 2 + Int.tdiv WINDOW_HEIGHT 2
  if d < 0 then 0 else d

/-- The clipped `drawEnd` for a wall of height `lineHeight`. -/
def drawEnd (lineHeight : Int) : Int :=
  let e := Int.tdiv lineHeight 2 + Int.tdiv WINDOW_HEIGHT 2
  if e ≥ WINDOW_HEIGHT then WINDOW_HEIGHT - 1 else e

/-- The pixel `(0xFF << 24) | (r << 16) | (g << 8) | b` built from three
`uint8_t` channels. -/
def packARGB (c : Nat × Nat × Nat) : Nat :=
  (0xFF <<< 24) ||| ((c.1 % 256) <<< 16) ||| ((c.2.1 % 256) <<< 8) ||| (c.2.2 % 256)

/-- The shaded channels `(r, g, b)` that the floating-point shading code of
`renderFrame` produces for the wall pixel, the floor pixel and the ceiling
pixel of loop index `y`. -/
structure Shading where
  wall : Int → Nat × Nat × Nat
  floor : Int → Nat × Nat × Nat
  ceil : Int → Nat × Nat × Nat

/-- The values `lo, lo + 1, .., hi - 1` of `for (int y = lo; y < hi; y++)`. -/
def intRange (lo hi : Int) : List Int :=
  (List.range (hi - lo).toNat).map (fun (k : Nat) => lo + (k : Int))

/-- The loop `for (int y = drawStart; y < drawEnd; y++)` of column `x`. -/
def drawWall (sh : Shading) (x lineHeight : Int) (buf : FrameBuffer) : FrameBuffer :=
  (intRange (drawStart lineHeight) (drawEnd lineHeight)).foldl
    (fun buf y => setPixel buf (y * WINDOW_WIDTH + x) (packARGB (sh.wall y))) buf

/-- The loop `for (int y = drawEnd + 1; y < WINDOW_HEIGHT; y++)` of column
`x`: the floor pixel of row `y` and the ceiling pixel of row
`WINDOW_HEIGHT - y`. -/
def drawFloorCeiling (sh : Shading) (x lineHeight : Int) (buf : FrameBuffer) :
    FrameBuffer :=
  (intRange (drawEnd lineHeight + 1) WINDOW_HEIGHT).foldl
    (fun buf y =>
      let buf := setPixel buf (y * WINDOW_WIDTH + x) (packARGB (sh.floor y))
      setPixel buf ((WINDOW_HEIGHT - y) * WINDOW_WIDTH + x) (packARGB (sh.ceil y))) buf

/-- The pixel writes of the ray-casting pass for column `x`, whose wall has
height `lineHeight`. -/
def renderColumn (sh : Shading) (x lineHeight : Int) (buf : FrameBuffer) : FrameBuffer :=
  drawFloorCeiling sh x lineHeight (drawWall sh x lineHeight buf)

/-! ## Sample data -/

/-- The grid that is empty except for its outer ring. -/
def borderGrid : Grid := fun x y => if onRing x y then 1 else 0

/-- A keyboard state with no key held. -/
def noKeys : Keys := { w := false, s := false, a := false, d := false, lshift := false }

/-- A keyboard state with only W held. -/
def forwardKeys : Keys := { w := true, s := false, a := false, d := false, lshift := false }

/-- A keyboard state with only LSHIFT held. -/
def sprintKeys : Keys := { w := false, s := false, a := false, d := false, lshift := true }

/-- The border grid with one more wall, in cell `(1, 2)`. -/
def cornerGrid : Grid := setCell borderGrid 1 2 1

/-- A player in cell `(1, 1)` next to the corner of cell `(2, 2)`, facing
`(0.6, 0.8)`. -/
def cornerPlayer : Player ℚ :=
  { posX := 19 / 10, posY := 19 / 10, dirX := 3 / 5, dirY := 4 / 5, planeX := -(66 / 125),
    planeY := 99 / 250, moveSpeed := 5 / 100, rotSpeed := 3 / 100, stamina := 100,
    sprinting := false }

/-- The writes that `generateMaze` performs after the two ring loops: the cell
is strictly inside the ring, the value is a cell code `0 .. NUM_TEXTURES`, and
a wall code is written only to a cell with an even coordinate. -/
def mazeWrite (x y v : Int) : Prop :=
  (0 < x ∧ x < MAP_WIDTH - 1 ∧ 0 < y ∧ y < MAP_HEIGHT - 1) ∧ (0 ≤ v ∧ v ≤ NUM_TEXTURES) ∧
    (v ≠ 0 → x % 2 = 0 ∨ y % 2 = 0)

/-! ## renderFrame: wall distance and texture coordinates -/

section Texturing

variable {α : Type} [LinearOrderedField α] [FloorRing α]

/-- The value of `perpWallDist` computed after the DDA loop from its final
locals (`stepX` and `stepY` are those chosen for the ray). -/
def perpWallDist (posX posY rayDirX rayDirY : α) (s : DDA α) : α :=
  if s.side = 0 then
    ((s.mapX : α) - posX + ((Int.tdiv (1 - stepOf rayDirX) 2 : Int) : α)) / rayDirX
  else
    ((s.mapY : α) - posY + ((Int.tdiv (1 - stepOf rayDirY) 2 : Int) : α)) / rayDirY

/-- The value of `lineHeight`: `(int)(WINDOW_HEIGHT / perpWallDist)`, for a
quotient within the range of `int`. -/
def lineHeight (perp : α) : Int := toInt ((WINDOW_HEIGHT : α) / perp)

/-- The value of `wallX` after `wallX -= floor (wallX)`. -/
def wallX (posX posY rayDirX rayDirY perp : α) (side : Int) : α :=
  let w := if side = 0 then posY + perp * rayDirY else posX + perp * rayDirX
  w - (⌊w⌋ : α)

/-- The value of `texX` before the two mirroring statements. -/
def texX0 (wallX : α) : Int := toInt (wallX * (TEXTURE_SIZE : α))

/-- The value of `texX` after the two mirroring statements. -/
def texX (wallX rayDirX rayDirY : α) (side : Int) : Int :=
  let t := texX0 wallX
  let t := if side = 0 ∧ rayDirX > 0 then (TEXTURE_SIZE : Int) - t - 1 else t
  if side = 1 ∧ rayDirY < 0 then (TEXTURE_SIZE : Int) - t - 1 else t

/-- The value of `step`: `1.0 * TEXTURE_SIZE / lineHeight`. -/
def texStep (lineHeight : Int) : α := 1 * (TEXTURE_SIZE : α) / (lineHeight : α)

/-- The value of `texPos` in the wall loop after `k` executions of
`texPos += step`. -/
def texPos (lineHeight : Int) (k : Nat) : α :=
  (fun t : α => t + texStep lineHeight)^[k]
    (((drawStart lineHeight - Int.tdiv WINDOW_HEIGHT 2 + Int.tdiv lineHeight 2 : Int) : α) *
      texStep lineHeight)

/-- The value of `texY`: `(int)texPos & (TEXTURE_SIZE - 1)`. -/
def texY (t : α) : Int := Int.land (toInt t) ((TEXTURE_SIZE : Int) - 1)

/-- The value of `currentDist` for screen row `y`. -/
def currentDist (y : Int) : α := (WINDOW_HEIGHT : α) / (2 * (y : α) - (WINDOW_HEIGHT : α))

/-- The floor-plane coordinate `weight * wallX + (1.0 - weight) * pos`
(`currentFloorX` with `pos = posX`, `currentFloorY` with `pos = posY`). -/
def currentFloor (weight wallX pos : α) : α := weight * wallX + (1 - weight) * pos

/-- The value of `floorTexX` (or `floorTexY`) for a floor-plane coordinate:
`(int)(c * TEXTURE_SIZE) & (TEXTURE_SIZE - 1)`. -/
def floorTex (c : α) : Int := Int.land (toInt (c * (TEXTURE_SIZE : α))) ((TEXTURE_SIZE : Int) - 1)

end Texturing

/-! ## renderFrame: what the DDA loop keeps true -/

section DDAInvariant

variable {α : Type} [LinearOrderedField α] [FloorRing α]

/-- The relation between the locals of the DDA loop and the ray, true on entry
and after every iteration: `mapX` and `mapY` have moved from the start cell
`(x0, y0)` only in the direction of their step, and a side distance is `+inf`
exactly when its ray component is zero. -/
def ddaInv (x0 y0 : Int) (rayDirX rayDirY : α) (s : DDA α) : Prop :=
  (rayDirX < 0 → s.mapX ≤ x0) ∧ (¬ rayDirX < 0 → x0 ≤ s.mapX) ∧
    (rayDirY < 0 → s.mapY ≤ y0) ∧ (¬ rayDirY < 0 → y0 ≤ s.mapY) ∧
    (s.sideDistX = Dist.inf ↔ rayDirX = 0) ∧ (s.sideDistY = Dist.inf ↔ rayDirY = 0)

/-- The locals right after an iteration of the DDA loop: the axis named by
`side` has a ray component that was eligible for the step, and its map
coordinate has left the start cell `(x0, y0)` by at least one cell. -/
def ddaStepped (x0 y0 : Int) (rayDirX rayDirY : α) (s : DDA α) : Prop :=
  (s.side = 0 ∧ rayDirX ≠ 0 ∧ (rayDirX < 0 → s.mapX ≤ x0 - 1) ∧
      (¬ rayDirX < 0 → x0 + 1 ≤ s.mapX)) ∨
    (s.side = 1 ∧ (rayDirY = 0 → rayDirX = 0) ∧ (rayDirY < 0 → s.mapY ≤ y0 - 1) ∧
      (¬ rayDirY < 0 → y0 + 1 ≤ s.mapY))

end DDAInvariant

/-! # Properties

## Properties of generateMaze -/

/-- An invariant of every step of a left fold holds of its result. -/
theorem foldl_invariant {σ β : Type} (P : σ → Prop) (f : σ → β → σ) (l : List β)
    (hf : ∀ s b, b ∈ l → P s → P (f s b)) (init : σ) (h0 : P init) :
    P (l.foldl f init) := by
  induction l generalizing init with
  | nil => simpa using h0
  | cons b l ih =>
    simp only [List.foldl_cons]
    apply ih
    · intro s c hc hs
      exact hf s c (List.mem_cons_of_mem _ hc) hs
    · exact hf init b (List.mem_cons_self _ _) h0

theorem setCell_apply (g : Grid) (x y v a b : Int) :
    setCell g x y v a b = if a = x ∧ b = y then v else g a b := rfl

theorem setCell_other (g : Grid) (x y v a b : Int) (h : ¬ (a = x ∧ b = y)) :
    setCell g x y v a b = g a b := by
  simp [setCell_apply, h]

theorem ringStamped_setCell (g : Grid) (x y v : Int) (hg : ringStamped g)
    (hxy : 0 < x ∧ x < MAP_WIDTH - 1 ∧ 0 < y ∧ y < MAP_HEIGHT - 1) :
    ringStamped (setCell g x y v) := by
  intro a b hab
  rw [setCell_other]
  · exact hg a b hab
  · rintro ⟨rfl, rfl⟩
    obtain ⟨-, h⟩ := hab
    simp only [MAP_WIDTH, MAP_HEIGHT] at hxy h
    omega

theorem stampColumns_keeps (g : Grid) (a b : Int) (h : g a b = 1) :
    stampColumns g a b = 1 := by
  unfold stampColumns
  refine foldl_invariant (fun g : Grid => g a b = 1) _ _ ?_ g h
  intro s x _ hs
  simp only [setCell_apply]
  split_ifs <;> simp [hs]

theorem stampRows_keeps (g : Grid) (a b : Int) (h : g a b = 1) :
    stampRows g a b = 1 := by
  unfold stampRows
  refine foldl_invariant (fun g : Grid => g a b = 1) _ _ ?_ g h
  intro s x _ hs
  simp only [setCell_apply]
  split_ifs <;> simp [hs]

theorem stampColumns_sets (l : List Nat) (g : Grid) (n : Nat) (hn : n ∈ l) (b : Int)
    (hb : b = 0 ∨ b = MAP_HEIGHT - 1) :
    l.foldl (fun g (x : Nat) => setCell (setCell g x 0 1) x (MAP_HEIGHT - 1) 1) g n b = 1 := by
  induction l generalizing g with
  | nil => simp at hn
  | cons x l ih =>
    simp only [List.foldl_cons]
    rcases List.mem_cons.1 hn with rfl | hl
    · refine foldl_invariant (fun g : Grid => g (n : Int) b = 1) _ _ ?_ _ ?_
      · intro s x _ hs
        simp only [setCell_apply]
        split_ifs <;> simp [hs]
      · simp only [setCell_apply]
        rcases hb with rfl | rfl <;> simp
    · exact ih _ hl

theorem stampRows_sets (l : List Nat) (g : Grid) (n : Nat) (hn : n ∈ l) (a : Int)
    (ha : a = 0 ∨ a = MAP_WIDTH - 1) :
    l.foldl (fun g (y : Nat) => setCell (setCell g 0 y 1) (MAP_WIDTH - 1) y 1) g a n = 1 := by
  induction l generalizing g with
  | nil => simp at hn
  | cons x l ih =>
    simp only [List.foldl_cons]
    rcases List.mem_cons.1 hn with rfl | hl
    · refine foldl_invariant (fun g : Grid => g a (n : Int) = 1) _ _ ?_ _ ?_
      · intro s x _ hs
        simp only [setCell_apply]
        split_ifs <;> simp [hs]
      · simp only [setCell_apply]
        rcases ha with rfl | rfl <;> simp
    · exact ih _ hl

theorem ringStamped_stamp (g : Grid) : ringStamped (stampRows (stampColumns g)) := by
  intro x y ⟨⟨hx0, hx1, hy0, hy1⟩, hr⟩
  simp only [MAP_WIDTH, MAP_HEIGHT] at hx1 hy1 hr
  by_cases hy : y = 0 ∨ y = 49
  · apply stampRows_keeps
    have hx : ((x.toNat : Nat) : Int) = x := Int.toNat_of_nonneg hx0
    have := stampColumns_sets (List.range 50) g x.toNat (by simp; omega) y
      (by simpa [MAP_HEIGHT] using hy)
    rw [hx] at this
    exact this
  · have hx' : x = 0 ∨ x = 49 := by omega
    have hyn : ((y.toNat : Nat) : Int) = y := Int.toNat_of_nonneg hy0
    have := stampRows_sets (List.range 50) (stampColumns g) y.toNat (by simp; omega) x
      (by simpa [MAP_WIDTH] using hx')
    rw [hyn] at this
    exact this

theorem mem_seedCoords (i : Int) (h : i ∈ seedCoords) : 2 ≤ i ∧ i ≤ 46 ∧ i % 2 = 0 := by
  simp only [seedCoords, List.mem_map, List.mem_range] at h
  obtain ⟨k, hk, rfl⟩ := h
  omega

theorem ringStamped_armCell (rand : Nat → Nat) (i j : Int) (dir : Nat) (s : MazeState)
    (k : Nat) (hs : ringStamped s.map) : ringStamped (armCell rand i j dir s k).map := by
  unfold armCell
  simp only [draw]
  split_ifs with h
  · exact ringStamped_setCell _ _ _ _ hs h
  · exact hs

theorem ringStamped_pillar (rand : Nat → Nat) (i j : Int) (s : MazeState)
    (hi : 0 < i ∧ i < MAP_WIDTH - 1) (hj : 0 < j ∧ j < MAP_HEIGHT - 1)
    (hs : ringStamped s.map) : ringStamped (pillar rand i j s).map := by
  unfold pillar
  simp only [draw]
  have h1 : ∀ v : Int, ringStamped (setCell s.map i j v) := fun v =>
    ringStamped_setCell _ _ _ _ hs ⟨hi.1, hi.2, hj.1, hj.2⟩
  split_ifs
  · refine foldl_invariant (fun s : MazeState => ringStamped s.map) _ _ ?_ _ (h1 _)
    intro s k _ hs
    exact ringStamped_armCell rand i j _ s k hs
  · exact h1 _
  · exact hs

theorem ringStamped_pillars (rand : Nat → Nat) (s : MazeState) (hs : ringStamped s.map) :
    ringStamped (seedCoords.foldl (pillarRow rand) s).map := by
  refine foldl_invariant (fun s : MazeState => ringStamped s.map) _ _ ?_ s hs
  intro s i hi hs
  unfold pillarRow
  refine foldl_invariant (fun s : MazeState => ringStamped s.map) _ _ ?_ s hs
  intro s j hj hs
  have hi' := mem_seedCoords i hi
  have hj' := mem_seedCoords j hj
  exact ringStamped_pillar rand i j s (by simp only [MAP_WIDTH]; omega)
    (by simp only [MAP_HEIGHT]; omega) hs

theorem ringStamped_generateMaze (rand : Nat → Nat) (g : Grid) :
    ringStamped (generateMaze rand g) := by
  unfold generateMaze
  have h := ringStamped_pillars rand { map := stampRows (stampColumns (clearMap g)), draws := 0 }
    (ringStamped_stamp _)
  refine ringStamped_setCell _ _ _ _ (ringStamped_setCell _ _ _ _
    (ringStamped_setCell _ _ _ _ h ?_) ?_) ?_ <;> simp [MAP_WIDTH, MAP_HEIGHT]

/-- The map built by `generateMaze` satisfies the border invariant. -/
theorem ringOccupied_generateMaze (rand : Nat → Nat) (g : Grid) :
    ringOccupied (generateMaze rand g) := by
  intro x y h
  simp [occupied, ringStamped_generateMaze rand g x y h]

/-- C1: for every stream of `rand ()` values and every previous content of the
map, each cell of the outer ring still holds the stamped wall code `1` after
`generateMaze` (so it is occupied: non-zero, and positive as the ray caster
tests it); neither the pillar and arm placement nor the clearing of the spawn
pocket has overwritten it. -/
theorem generateMaze_outer_ring (rand : Nat → Nat) (g : Grid) (x y : Int)
    (h : onRing x y) :
    generateMaze rand g x y = 1 ∧ generateMaze rand g x y ≠ 0 ∧
      occupied (generateMaze rand g) x y := by
  have h1 := ringStamped_generateMaze rand g x y h
  refine ⟨h1, ?_, ?_⟩
  · rw [h1]; decide
  · simp [occupied, h1]

theorem generateMaze_outer_ring_witness :
    onRing 49 7 ∧ (generateMaze (fun n => 3 * n) (fun _ _ => 5) 49 7 = 1 ∧
      generateMaze (fun n => 3 * n) (fun _ _ => 5) 49 7 ≠ 0 ∧
      occupied (generateMaze (fun n => 3 * n) (fun _ _ => 5)) 49 7) :=
  ⟨by decide, generateMaze_outer_ring (fun n => 3 * n) (fun _ _ => 5) 49 7 (by decide)⟩

section SpawnPocket

variable {α : Type} [LinearOrderedField α] [FloorRing α]

theorem toInt_three_halves : toInt (3 / 2 : α) = 1 := by
  have h : (0 : α) ≤ 3 / 2 := by norm_num
  rw [toInt, if_pos h, Int.floor_eq_iff]
  constructor <;> norm_num

/-- C8: for every stream of `rand ()` values and every previous content of the
map, the cells `map[1][1]`, `map[1][2]` and `map[2][1]` are `0` after
`generateMaze`, and the cell `map[(int)posX][(int)posY]` of the position
`(1.5, 1.5)` set by `initGame` is empty. -/
theorem generateMaze_spawn_pocket (rand : Nat → Nat) (g : Grid) :
    generateMaze rand g 1 1 = 0 ∧ generateMaze rand g 1 2 = 0 ∧
      generateMaze rand g 2 1 = 0 ∧
      (initPlayer : Player α).posX = 3 / 2 ∧ (initPlayer : Player α).posY = 3 / 2 ∧
      generateMaze rand g (toInt (initPlayer : Player α).posX)
        (toInt (initPlayer : Player α).posY) = 0 := by
  have h11 : generateMaze rand g 1 1 = 0 := by simp [generateMaze, setCell_apply]
  refine ⟨h11, ?_, ?_, rfl, rfl, ?_⟩
  · simp [generateMaze, setCell_apply]
  · simp [generateMaze, setCell_apply]
  · simp only [initPlayer, toInt_three_halves]
    exact h11

end SpawnPocket

/-! ## Properties of generateTextures -/

theorem setTexel_apply (tex : Textures) (t i v a b : Nat) :
    setTexel tex t i v a b = if a = t ∧ b = i then v else tex a b := rfl

/-- The innermost loop, over `y`, run for `n` iterations. -/
theorem texture_loop_y (t x : Nat) (hx : x < 64) (n : Nat) (tex : Textures) (a i : Nat) :
    (List.range n).foldl (fun tex y =>
        setTexel tex t (y * TEXTURE_SIZE + x) (texel t x y)) tex a i =
      if a = t ∧ i % 64 = x ∧ i / 64 < n then texel t x (i / 64) else tex a i := by
  simp only [TEXTURE_SIZE]
  induction n with
  | zero => simp
  | succ n ih =>
    rw [List.range_succ, List.foldl_append]
    simp only [List.foldl_cons, List.foldl_nil, setTexel_apply, ih]
    by_cases h : a = t ∧ i = n * 64 + x
    · obtain ⟨rfl, rfl⟩ := h
      have h1 : (n * 64 + x) % 64 = x := by omega
      have h2 : (n * 64 + x) / 64 = n := by omega
      simp [h1, h2]
    · rw [if_neg h]
      by_cases h3 : a = t ∧ i % 64 = x ∧ i / 64 < n
      · have : a = t ∧ i % 64 = x ∧ i / 64 < n + 1 := ⟨h3.1, h3.2.1, by omega⟩
        rw [if_pos h3, if_pos this]
      · have : ¬ (a = t ∧ i % 64 = x ∧ i / 64 < n + 1) := by
          rintro ⟨h4, h5, h6⟩
          by_cases h7 : i / 64 = n
          · exact h ⟨h4, by omega⟩
          · exact h3 ⟨h4, h5, by omega⟩
        rw [if_neg h3, if_neg this]

/-- The middle loop, over `x`, run for `m` iterations. -/
theorem texture_loop_x (t m : Nat) (hm : m ≤ 64) (tex : Textures) (a i : Nat) :
    (List.range m).foldl (fun tex x =>
        (List.range TEXTURE_SIZE).foldl (fun tex y =>
          setTexel tex t (y * TEXTURE_SIZE + x) (texel t x y)) tex) tex a i =
      if a = t ∧ i % 64 < m ∧ i / 64 < 64 then texel t (i % 64) (i / 64) else tex a i := by
  induction m with
  | zero => simp
  | succ m ih =>
    rw [List.range_succ, List.foldl_append]
    simp only [List.foldl_cons, List.foldl_nil]
    have hy := texture_loop_y t m (by omega) 64
    simp only [TEXTURE_SIZE] at hy ih ⊢
    rw [hy, ih (by omega)]
    by_cases h : a = t ∧ i % 64 = m ∧ i / 64 < 64
    · obtain ⟨rfl, rfl, h3⟩ := h
      simp [h3]
    · rw [if_neg h]
      by_cases h3 : a = t ∧ i % 64 < m ∧ i / 64 < 64
      · have : a = t ∧ i % 64 < m + 1 ∧ i / 64 < 64 := ⟨h3.1, by omega, h3.2.2⟩
        rw [if_pos h3, if_pos this]
      · have : ¬ (a = t ∧ i % 64 < m + 1 ∧ i / 64 < 64) := by
          rintro ⟨h4, h5, h6⟩
          by_cases h7 : i % 64 = m
          · exact h ⟨h4, h7, h6⟩
          · exact h3 ⟨h4, by omega, h6⟩
        rw [if_neg h3, if_neg this]

/-- The outer loop, over `t`, run for `k` iterations. -/
theorem texture_loop_t (k : Nat) (tex : Textures) (a i : Nat) :
    (List.range k).foldl (fun tex t =>
        (List.range TEXTURE_SIZE).foldl (fun tex x =>
          (List.range TEXTURE_SIZE).foldl (fun tex y =>
            setTexel tex t (y * TEXTURE_SIZE + x) (texel t x y)) tex) tex) tex a i =
      if a < k ∧ i / 64 < 64 then texel a (i % 64) (i / 64) else tex a i := by
  induction k with
  | zero => simp
  | succ k ih =>
    rw [List.range_succ, List.foldl_append]
    simp only [List.foldl_cons, List.foldl_nil]
    have hx := texture_loop_x k 64 (le_refl _)
    simp only [TEXTURE_SIZE] at hx ih ⊢
    rw [hx, ih]
    have hi : i % 64 < 64 := Nat.mod_lt _ (by decide)
    by_cases h : a = k ∧ i / 64 < 64
    · obtain ⟨rfl, h3⟩ := h
      simp [h3, hi]
    · have h' : ¬ (a = k ∧ i % 64 < 64 ∧ i / 64 < 64) := fun hh => h ⟨hh.1, hh.2.2⟩
      rw [if_neg h']
      by_cases h3 : a < k ∧ i / 64 < 64
      · have : a < k + 1 ∧ i / 64 < 64 := ⟨by omega, h3.2⟩
        rw [if_pos h3, if_pos this]
      · have : ¬ (a < k + 1 ∧ i / 64 < 64) := by
          rintro ⟨h4, h6⟩
          by_cases h7 : a = k
          · exact h ⟨h7, h6⟩
          · exact h3 ⟨by omega, h6⟩
        rw [if_neg h3, if_neg this]

/-- Every sample written by `generateTextures` is the `color` of its own
`(t, x, y)`. -/
theorem generateTextures_apply (tex : Textures) (t x y : Nat) (ht : t < 4) (hx : x < 64)
    (hy : y < 64) : generateTextures tex t (y * 64 + x) = texel t x y := by
  have h := texture_loop_t 4 tex t (y * 64 + x)
  have h1 : (y * 64 + x) % 64 = x := by omega
  have h2 : (y * 64 + x) / 64 = y := by omega
  rw [h1, h2, if_pos ⟨ht, hy⟩] at h
  exact h

theorem metal_pack (w : Nat) (hw : w < 64) :
    0xFF000000 ||| (((w + 128) <<< 16) ||| ((w + 128) <<< 8) ||| (w + 128)) =
      argb 0xFF (w + 128) (w + 128) (w + 128) := by
  interval_cases w <;> decide

theorem texel_eq_spec (t x y : Nat) (ht : t < 4) : texel t x y = texelSpec t x y := by
  interval_cases t
  · rw [texelSpec, if_pos rfl]
    simp only [texel]
    split_ifs <;> decide
  · rw [texelSpec, if_neg (by decide), if_pos rfl]
    simp only [texel]
    split_ifs <;> decide
  · have h : (x / 4 + y / 4) % 2 ≠ 0 ↔ (x / 4 + y / 4) % 2 = 1 := by omega
    rw [texelSpec, if_neg (by decide), if_neg (by decide), if_pos rfl]
    simp only [texel, h]
    split_ifs <;> decide
  · rw [texelSpec, if_neg (by decide), if_neg (by decide), if_neg (by decide)]
    simp only [texel]
    exact metal_pack (x * y % 64) (Nat.mod_lt _ (by decide))

/-- C9: after `generateTextures`, whatever the textures held before, for every
texture id `t` in `0..3` and every `x`, `y` in `0..63` the sample
`textures[t][y*64 + x]` is the value the specification gives for `(t, x, y)`:
`0xFF444444` or `0xFF993333` (brick), `0xFF666666` or `0xFF888888` (stone),
`0xFF8B4513` or `0xFF654321` (wood), and alpha `0xFF` with three equal channels
`(x*y) mod 64 + 128` (metal). -/
theorem generateTextures_sample (tex : Textures) (t x y : Nat) (ht : t < 4) (hx : x < 64)
    (hy : y < 64) : generateTextures tex t (y * 64 + x) = texelSpec t x y := by
  rw [generateTextures_apply tex t x y ht hx hy, texel_eq_spec t x y ht]

theorem generateTextures_sample_witness :
    (3 : Nat) < 4 ∧ (5 : Nat) < 64 ∧ (7 : Nat) < 64 ∧
      generateTextures (fun _ _ => 0) 3 (7 * 64 + 5) = texelSpec 3 5 7 :=
  ⟨by decide, by decide, by decide,
    generateTextures_sample (fun _ _ => 0) 3 5 7 (by decide) (by decide) (by decide)⟩

/-! ## Properties of handleInput and updatePlayerStamina -/

section Movement

variable {α : Type} [LinearOrderedField α] [FloorRing α]

theorem handleInputTraced_eq (cos sin : α → α) (g : Grid) (keys : Keys) (dt : α)
    (p : Player α) :
    handleInputTraced cos sin g keys dt p =
      (rotateLeft cos sin keys (p.rotSpeed * dt * 60)
        (rotateRight cos sin keys (p.rotSpeed * dt * 60)
          (moveBackward g keys (stepLength (withSprint keys p) dt)
            (moveForward g keys (stepLength (withSprint keys p) dt) (withSprint keys p)).1).1),
        (moveForward g keys (stepLength (withSprint keys p) dt) (withSprint keys p)).2 ++
          (moveBackward g keys (stepLength (withSprint keys p) dt)
            (moveForward g keys (stepLength (withSprint keys p) dt) (withSprint keys p)).1).2) :=
  rfl

theorem rotateRight_pos (cos sin : α → α) (keys : Keys) (r : α) (p : Player α) :
    (rotateRight cos sin keys r p).posX = p.posX ∧
      (rotateRight cos sin keys r p).posY = p.posY := by
  unfold rotateRight
  split_ifs <;> exact ⟨rfl, rfl⟩

theorem rotateLeft_pos (cos sin : α → α) (keys : Keys) (r : α) (p : Player α) :
    (rotateLeft cos sin keys r p).posX = p.posX ∧
      (rotateLeft cos sin keys r p).posY = p.posY := by
  unfold rotateLeft
  split_ifs <;> exact ⟨rfl, rfl⟩

end Movement

section Stamina

variable {α : Type} [LinearOrderedField α] [FloorRing α]

theorem translate_fields (g : Grid) (p : Player α) (newX newY : α) :
    (translate g p newX newY).1.dirX = p.dirX ∧ (translate g p newX newY).1.dirY = p.dirY ∧
      (translate g p newX newY).1.planeX = p.planeX ∧
      (translate g p newX newY).1.planeY = p.planeY ∧
      (translate g p newX newY).1.stamina = p.stamina ∧
      (translate g p newX newY).1.sprinting = p.sprinting := by
  unfold translate
  simp only
  split_ifs <;> simp

theorem moveForward_fields (g : Grid) (keys : Keys) (m : α) (p : Player α) :
    (moveForward g keys m p).1.dirX = p.dirX ∧ (moveForward g keys m p).1.dirY = p.dirY ∧
      (moveForward g keys m p).1.planeX = p.planeX ∧
      (moveForward g keys m p).1.planeY = p.planeY ∧
      (moveForward g keys m p).1.stamina = p.stamina ∧
      (moveForward g keys m p).1.sprinting = p.sprinting := by
  unfold moveForward
  split_ifs
  · exact translate_fields g p _ _
  · simp

theorem moveBackward_fields (g : Grid) (keys : Keys) (m : α) (p : Player α) :
    (moveBackward g keys m p).1.dirX = p.dirX ∧ (moveBackward g keys m p).1.dirY = p.dirY ∧
      (moveBackward g keys m p).1.planeX = p.planeX ∧
      (moveBackward g keys m p).1.planeY = p.planeY ∧
      (moveBackward g keys m p).1.stamina = p.stamina ∧
      (moveBackward g keys m p).1.sprinting = p.sprinting := by
  unfold moveBackward
  split_ifs
  · exact translate_fields g p _ _
  · simp

theorem rotateRight_fields (cos sin : α → α) (keys : Keys) (r : α) (p : Player α) :
    (rotateRight cos sin keys r p).stamina = p.stamina ∧
      (rotateRight cos sin keys r p).sprinting = p.sprinting := by
  unfold rotateRight
  split_ifs <;> exact ⟨rfl, rfl⟩

theorem rotateLeft_fields (cos sin : α → α) (keys : Keys) (r : α) (p : Player α) :
    (rotateLeft cos sin keys r p).stamina = p.stamina ∧
      (rotateLeft cos sin keys r p).sprinting = p.sprinting := by
  unfold rotateLeft
  split_ifs <;> exact ⟨rfl, rfl⟩

/-- The function `handleInput` leaves the stamina as it was and sets the sprint
flag from the key and the stamina on entry. -/
theorem handleInput_stamina (cos sin : α → α) (g : Grid) (keys : Keys) (dt : α)
    (p : Player α) :
    (handleInput cos sin g keys dt p).stamina = p.stamina ∧
      (handleInput cos sin g keys dt p).sprinting =
        (keys.lshift && decide (p.stamina > 0)) := by
  rw [handleInput, handleInputTraced_eq]
  simp only [(rotateLeft_fields cos sin keys _ _).1, (rotateLeft_fields cos sin keys _ _).2,
    (rotateRight_fields cos sin keys _ _).1, (rotateRight_fields cos sin keys _ _).2,
    (moveBackward_fields g keys _ _).2.2.2.2.1, (moveBackward_fields g keys _ _).2.2.2.2.2,
    (moveForward_fields g keys _ _).2.2.2.2.1, (moveForward_fields g keys _ _).2.2.2.2.2]
  exact ⟨rfl, rfl⟩

theorem updatePlayerStamina_bounds (dt : α) (p : Player α) (hdt : 0 ≤ dt)
    (hp : 0 ≤ p.stamina ∧ p.stamina ≤ 100) :
    0 ≤ (updatePlayerStamina dt p).stamina ∧ (updatePlayerStamina dt p).stamina ≤ 100 := by
  unfold updatePlayerStamina
  simp only
  split_ifs with h1 h2 h2
  · simp
  · simp only at h2 ⊢
    constructor <;> linarith [hp.1, hp.2]
  · simp
  · simp only at h2 ⊢
    constructor <;> linarith [hp.1, hp.2]

theorem frame_stamina_bounds (cos sin : α → α) (g : Grid) (p : Player α) (f : Keys × α)
    (hdt : 0 ≤ f.2) (hp : 0 ≤ p.stamina ∧ p.stamina ≤ 100) :
    0 ≤ (frame cos sin g p f).stamina ∧ (frame cos sin g p f).stamina ≤ 100 := by
  unfold frame
  apply updatePlayerStamina_bounds _ _ hdt
  rw [(handleInput_stamina cos sin g f.1 f.2 p).1]
  exact hp

/-- C5: for every starting stamina in `[0, 100]`, every sequence of frames
(each with its own keys, sprint held or not) whose elapsed times are
non-negative, however large, the stamina after each frame of the run
(`handleInput` followed by `updatePlayerStamina`) is within `[0, 100]`. -/
theorem stamina_stays_in_range (cos sin : α → α) (g : Grid) (p : Player α)
    (fs : List (Keys × α)) (hp : 0 ≤ p.stamina ∧ p.stamina ≤ 100)
    (hdt : ∀ f ∈ fs, 0 ≤ f.2) (k : Nat) :
    0 ≤ (runFrames cos sin g p (fs.take k)).stamina ∧
      (runFrames cos sin g p (fs.take k)).stamina ≤ 100 := by
  unfold runFrames
  refine foldl_invariant (fun q : Player α => 0 ≤ q.stamina ∧ q.stamina ≤ 100) _ _ ?_ p hp
  intro q f hf hq
  exact frame_stamina_bounds cos sin g q f (hdt f (List.mem_of_mem_take hf)) hq

end Stamina

theorem stamina_stays_in_range_witness :
    ((0 : ℚ) ≤ (initPlayer : Player ℚ).stamina ∧ (initPlayer : Player ℚ).stamina ≤ 100) ∧
      (∀ f ∈ [(sprintKeys, (1000000 : ℚ)), (noKeys, (1 : ℚ))], 0 ≤ f.2) ∧
      (0 ≤ (runFrames (fun _ => 1) (fun _ => 0) borderGrid (initPlayer : Player ℚ)
          ([(sprintKeys, (1000000 : ℚ)), (noKeys, (1 : ℚ))].take 2)).stamina ∧
        (runFrames (fun _ => 1) (fun _ => 0) borderGrid (initPlayer : Player ℚ)
          ([(sprintKeys, (1000000 : ℚ)), (noKeys, (1 : ℚ))].take 2)).stamina ≤ 100) :=
  ⟨by norm_num [initPlayer], by simp,
    stamina_stays_in_range (fun _ => 1) (fun _ => 0) borderGrid (initPlayer : Player ℚ)
      [(sprintKeys, (1000000 : ℚ)), (noKeys, (1 : ℚ))] (by norm_num [initPlayer]) (by simp) 2⟩

/-! ## Rotation -/

section Rotation

variable {α : Type} [LinearOrderedField α] [FloorRing α]

theorem sameGeometry_refl (p : Player α) : sameGeometry p p := ⟨rfl, rfl, rfl⟩

theorem sameGeometry_trans {p q r : Player α} (h1 : sameGeometry p q)
    (h2 : sameGeometry q r) : sameGeometry p r :=
  ⟨h2.1.trans h1.1, h2.2.1.trans h1.2.1, h2.2.2.trans h1.2.2⟩

/-- One application of the rotation block with `c ^ 2 + s ^ 2 = 1`. -/
theorem sameGeometry_rotate (c s : α) (h : c ^ 2 + s ^ 2 = 1) (p : Player α) :
    sameGeometry p (rotate c s p) := by
  refine ⟨?_, ?_, ?_⟩
  · simp only [rotate]
    linear_combination (p.dirX ^ 2 + p.dirY ^ 2) * h
  · simp only [rotate]
    linear_combination (p.planeX ^ 2 + p.planeY ^ 2) * h
  · simp only [rotate]
    linear_combination (p.dirX * p.planeX + p.dirY * p.planeY) * h

theorem sameGeometry_of_fields (p q : Player α) (h1 : q.dirX = p.dirX) (h2 : q.dirY = p.dirY)
    (h3 : q.planeX = p.planeX) (h4 : q.planeY = p.planeY) : sameGeometry p q := by
  simp only [sameGeometry, h1, h2, h3, h4, and_self]

theorem sameGeometry_moveForward (g : Grid) (keys : Keys) (m : α) (p : Player α) :
    sameGeometry p (moveForward g keys m p).1 :=
  have h := moveForward_fields g keys m p
  sameGeometry_of_fields _ _ h.1 h.2.1 h.2.2.1 h.2.2.2.1

theorem sameGeometry_moveBackward (g : Grid) (keys : Keys) (m : α) (p : Player α) :
    sameGeometry p (moveBackward g keys m p).1 :=
  have h := moveBackward_fields g keys m p
  sameGeometry_of_fields _ _ h.1 h.2.1 h.2.2.1 h.2.2.2.1

theorem sameGeometry_rotateRight (cos sin : α → α) (hcs : ∀ a, cos a ^ 2 + sin a ^ 2 = 1)
    (keys : Keys) (r : α) (p : Player α) :
    sameGeometry p (rotateRight cos sin keys r p) := by
  unfold rotateRight
  split_ifs
  · exact sameGeometry_rotate _ _ (hcs _) _
  · exact sameGeometry_refl _

theorem sameGeometry_rotateLeft (cos sin : α → α) (hcs : ∀ a, cos a ^ 2 + sin a ^ 2 = 1)
    (keys : Keys) (r : α) (p : Player α) :
    sameGeometry p (rotateLeft cos sin keys r p) := by
  unfold rotateLeft
  split_ifs
  · exact sameGeometry_rotate _ _ (hcs _) _
  · exact sameGeometry_refl _

/-- The function `handleInput` with a `cos` and a `sin` that satisfy
`cos ^ 2 + sin ^ 2 = 1` keeps the geometry of the two vectors. -/
theorem sameGeometry_handleInput (cos sin : α → α) (hcs : ∀ a, cos a ^ 2 + sin a ^ 2 = 1)
    (g : Grid) (keys : Keys) (dt : α) (p : Player α) :
    sameGeometry p (handleInput cos sin g keys dt p) := by
  rw [handleInput, handleInputTraced_eq]
  have h0 : sameGeometry p (withSprint keys p) := ⟨rfl, rfl, rfl⟩
  exact sameGeometry_trans (sameGeometry_trans (sameGeometry_trans (sameGeometry_trans h0
    (sameGeometry_moveForward g keys _ _)) (sameGeometry_moveBackward g keys _ _))
    (sameGeometry_rotateRight cos sin hcs keys _ _)) (sameGeometry_rotateLeft cos sin hcs keys _ _)

end Rotation

/-- C6: over the reals, with the library `cos` and `sin`, one `handleInput`
(for any keys, in particular one left or one right rotation step by any angle
`rotSpeed * dt * 60`) leaves `dirX^2 + dirY^2`, `planeX^2 + planeY^2` and
`dirX*planeX + dirY*planeY` unchanged, and so does every sequence of
`handleInput` calls. -/
theorem rotation_preserves_geometry (g : Grid) (p : Player ℝ) :
    (∀ (keys : Keys) (dt : ℝ),
        sameGeometry p (handleInput Real.cos Real.sin g keys dt p)) ∧
      (∀ fs : List (Keys × ℝ), sameGeometry p (runInputs Real.cos Real.sin g p fs)) := by
  have hcs : ∀ a : ℝ, Real.cos a ^ 2 + Real.sin a ^ 2 = 1 := Real.cos_sq_add_sin_sq
  refine ⟨fun keys dt => sameGeometry_handleInput _ _ hcs g keys dt p, fun fs => ?_⟩
  unfold runInputs
  refine foldl_invariant (fun q : Player ℝ => sameGeometry p q) _ _ ?_ p (sameGeometry_refl p)
  intro q f _ hq
  exact sameGeometry_trans hq (sameGeometry_handleInput _ _ hcs g f.1 f.2 q)

/-! ## Bounds of the collision tests -/

section Collision

variable {α : Type} [LinearOrderedField α] [FloorRing α]

theorem toInt_of_nonneg (x : α) (h : 0 ≤ x) : toInt x = ⌊x⌋ := by
  rw [toInt, if_pos h]

theorem toInt_eq (x : α) (n : Int) (h0 : 0 ≤ x) (h1 : (n : α) ≤ x) (h2 : x < n + 1) :
    toInt x = n := by
  rw [toInt_of_nonneg x h0, Int.floor_eq_iff]
  exact ⟨h1, h2⟩

/-- A value in `[0, 50)` converts to an index in `0 .. 49`. -/
theorem toInt_index (x : α) (h0 : 0 ≤ x) (h1 : x < 50) : 0 ≤ toInt x ∧ toInt x < 50 := by
  rw [toInt_of_nonneg x h0]
  constructor
  · exact Int.floor_nonneg.2 h0
  · rw [Int.floor_lt]
    exact_mod_cast h1

/-- A value whose index is in `1 .. 48` lies in `[1, 49)`. -/
theorem of_toInt_interior (x : α) (h1 : 1 ≤ toInt x) (h2 : toInt x ≤ 48) :
    1 ≤ x ∧ x < 49 := by
  by_cases h0 : 0 ≤ x
  · rw [toInt_of_nonneg x h0] at h1 h2
    constructor
    · have := Int.le_floor.1 h1
      exact_mod_cast this
    · have h3 : ⌊x⌋ < 49 := by omega
      have := Int.floor_lt.1 h3
      exact_mod_cast this
  · exfalso
    rw [toInt, if_neg h0] at h1
    have h3 : ⌈x⌉ ≤ 0 := Int.ceil_le.2 (by push_cast; exact le_of_lt (not_le.1 h0))
    omega

/-- An empty cell of a grid with an occupied ring is an interior cell. -/
theorem interior_of_empty (g : Grid) (hr : ringOccupied g) (a b : Int) (hb : inBounds a b)
    (h0 : g a b ≤ 0) : 1 ≤ a ∧ a ≤ 48 ∧ 1 ≤ b ∧ b ≤ 48 := by
  by_contra hc
  have hring : onRing a b := by
    refine ⟨hb, ?_⟩
    obtain ⟨h1, h2, h3, h4⟩ := hb
    simp only [MAP_WIDTH, MAP_HEIGHT] at h2 h4 ⊢
    omega
  have := hr a b hring
  unfold occupied at this
  omega

theorem translate_in_bounds (g : Grid) (hr : ringOccupied g) (p : Player α) (newX newY : α)
    (hp : inEmptyCell g p.posX p.posY) (hx : |newX - p.posX| ≤ 1) (hy : |newY - p.posY| ≤ 1) :
    (∀ c ∈ (translate g p newX newY).2, inBounds c.1 c.2) ∧
      inEmptyCell g (translate g p newX newY).1.posX (translate g p newX newY).1.posY := by
  obtain ⟨hb, h0⟩ := hp
  obtain ⟨ha1, ha2, hb1, hb2⟩ := interior_of_empty g hr _ _ hb (le_of_eq h0)
  obtain ⟨hx1, hx2⟩ := of_toInt_interior p.posX ha1 ha2
  obtain ⟨hy1, hy2⟩ := of_toInt_interior p.posY hb1 hb2
  rw [abs_le] at hx hy
  have hnx := toInt_index newX (by linarith [hx.1]) (by linarith [hx.2])
  have hny := toInt_index newY (by linarith [hy.1]) (by linarith [hy.2])
  have hc1 : inBounds (toInt newX) (toInt p.posY) := ⟨hnx.1, hnx.2, hb.2.2.1, hb.2.2.2⟩
  unfold translate
  simp only [List.mem_cons, List.mem_singleton, List.not_mem_nil, or_false, forall_eq_or_imp,
    forall_eq]
  split_ifs with h1 h2 h2
  · exact ⟨⟨hc1, ⟨hnx.1, hnx.2, hny.1, hny.2⟩⟩, ⟨hnx.1, hnx.2, hny.1, hny.2⟩, h2⟩
  · exact ⟨⟨hc1, ⟨hnx.1, hnx.2, hny.1, hny.2⟩⟩, hc1, h1⟩
  · exact ⟨⟨hc1, ⟨hb.1, hb.2.1, hny.1, hny.2⟩⟩, ⟨hb.1, hb.2.1, hny.1, hny.2⟩, h2⟩
  · exact ⟨⟨hc1, ⟨hb.1, hb.2.1, hny.1, hny.2⟩⟩, hb, h0⟩

theorem moveForward_in_bounds (g : Grid) (hr : ringOccupied g) (keys : Keys) (m : α)
    (p : Player α) (hp : inEmptyCell g p.posX p.posY) (hx : |p.dirX * m| ≤ 1)
    (hy : |p.dirY * m| ≤ 1) :
    (∀ c ∈ (moveForward g keys m p).2, inBounds c.1 c.2) ∧
      inEmptyCell g (moveForward g keys m p).1.posX (moveForward g keys m p).1.posY := by
  unfold moveForward
  split_ifs
  · exact translate_in_bounds g hr p _ _ hp (by simpa using hx) (by simpa using hy)
  · exact ⟨by simp, hp⟩

theorem moveBackward_in_bounds (g : Grid) (hr : ringOccupied g) (keys : Keys) (m : α)
    (p : Player α) (hp : inEmptyCell g p.posX p.posY) (hx : |p.dirX * m| ≤ 1)
    (hy : |p.dirY * m| ≤ 1) :
    (∀ c ∈ (moveBackward g keys m p).2, inBounds c.1 c.2) ∧
      inEmptyCell g (moveBackward g keys m p).1.posX (moveBackward g keys m p).1.posY := by
  unfold moveBackward
  split_ifs
  · refine translate_in_bounds g hr p _ _ hp ?_ ?_
    · rw [sub_sub_cancel_left, abs_neg]; exact hx
    · rw [sub_sub_cancel_left, abs_neg]; exact hy
  · exact ⟨by simp, hp⟩

/-- C10, as amended: for every grid with an occupied outer ring, every player
position in an empty cell, every key combination and every elapsed time
`dt >= 0` for which the step of the frame moves the player by at most one cell
along each axis (`|dirX * step| <= 1` and `|dirY * step| <= 1`, with `step` the
effective `moveSpeed` of the frame), all cells tested by the translation steps
of `handleInput` have indices inside the grid, and so has the cell of the
resulting position. -/
theorem handleInput_tests_in_bounds (cos sin : α → α) (g : Grid) (keys : Keys) (dt : α)
    (p : Player α) (hr : ringOccupied g) (hp : inEmptyCell g p.posX p.posY) (_hdt : 0 ≤ dt)
    (hx : |p.dirX * stepLength (withSprint keys p) dt| ≤ 1)
    (hy : |p.dirY * stepLength (withSprint keys p) dt| ≤ 1) :
    (∀ c ∈ cellsTested cos sin g keys dt p, inBounds c.1 c.2) ∧
      inBounds (toInt (handleInput cos sin g keys dt p).posX)
        (toInt (handleInput cos sin g keys dt p).posY) := by
  have h1 := moveForward_in_bounds g hr keys (stepLength (withSprint keys p) dt)
    (withSprint keys p) hp hx hy
  have hf := moveForward_fields g keys (stepLength (withSprint keys p) dt) (withSprint keys p)
  have h2 := moveBackward_in_bounds g hr keys (stepLength (withSprint keys p) dt)
    (moveForward g keys (stepLength (withSprint keys p) dt) (withSprint keys p)).1 h1.2
    (by rw [hf.1]; exact hx) (by rw [hf.2.1]; exact hy)
  rw [cellsTested, handleInput, handleInputTraced_eq]
  simp only [(rotateLeft_pos cos sin keys _ _).1, (rotateLeft_pos cos sin keys _ _).2,
    (rotateRight_pos cos sin keys _ _).1, (rotateRight_pos cos sin keys _ _).2]
  refine ⟨?_, h2.2.1⟩
  intro c hc
  rcases List.mem_append.1 hc with h | h
  · exact h1.1 c h
  · exact h2.1 c h

end Collision

theorem ringOccupied_borderGrid : ringOccupied borderGrid := by
  intro x y h
  simp [occupied, borderGrid, h]

theorem initPlayer_inEmptyCell :
    inEmptyCell borderGrid (initPlayer : Player ℚ).posX (initPlayer : Player ℚ).posY := by
  simp only [inEmptyCell, initPlayer, toInt_three_halves]
  decide

theorem stepLength_forward_twenty :
    stepLength (withSprint forwardKeys (initPlayer : Player ℚ)) 20 = 60 := by
  norm_num [stepLength, withSprint, forwardKeys, initPlayer]

/-- C10 fails as stated: on the grid that is empty inside its occupied ring,
from the start position `(1.5, 1.5)` facing `(1, 0)` with `moveSpeed = 0.05`, a
frame of `dt = 20` seconds with W held has a step of 60 cells, and the first
cell tested by `handleInput` is `map[61][1]`, outside the grid. -/
theorem handleInput_large_dt_out_of_bounds :
    ringOccupied borderGrid ∧
      inEmptyCell borderGrid (initPlayer : Player ℚ).posX (initPlayer : Player ℚ).posY ∧
      (0 : ℚ) ≤ 20 ∧
      (61, 1) ∈ cellsTested (fun _ => 1) (fun _ => 0) borderGrid forwardKeys (20 : ℚ)
        initPlayer ∧
      ¬ ((∀ c ∈ cellsTested (fun _ => 1) (fun _ => 0) borderGrid forwardKeys (20 : ℚ)
            initPlayer, inBounds c.1 c.2) ∧
          inBounds
            (toInt (handleInput (fun _ => 1) (fun _ => 0) borderGrid forwardKeys (20 : ℚ)
              initPlayer).posX)
            (toInt (handleInput (fun _ => 1) (fun _ => 0) borderGrid forwardKeys (20 : ℚ)
              initPlayer).posY)) := by
  have h61 : toInt ((3 / 2 : ℚ) + 1 * 60) = 61 :=
    toInt_eq _ 61 (by norm_num) (by norm_num) (by norm_num)
  have hmem : ((61 : Int), (1 : Int)) ∈ cellsTested (fun _ => 1) (fun _ => 0) borderGrid
      forwardKeys (20 : ℚ) initPlayer := by
    rw [cellsTested, handleInputTraced_eq, stepLength_forward_twenty]
    apply List.mem_append_left
    have : (moveForward borderGrid forwardKeys (60 : ℚ) (withSprint forwardKeys initPlayer)).2
        = (toInt ((3 / 2 : ℚ) + 1 * 60), toInt (3 / 2 : ℚ)) ::
          (moveForward borderGrid forwardKeys (60 : ℚ)
            (withSprint forwardKeys initPlayer)).2.tail := rfl
    rw [this, h61, toInt_three_halves]
    exact List.mem_cons_self _ _
  refine ⟨ringOccupied_borderGrid, initPlayer_inEmptyCell, by norm_num, hmem, ?_⟩
  rintro ⟨h, -⟩
  have := h _ hmem
  revert this
  decide

theorem handleInput_tests_in_bounds_witness :
    ringOccupied borderGrid ∧
      inEmptyCell borderGrid (initPlayer : Player ℚ).posX (initPlayer : Player ℚ).posY ∧
      (0 : ℚ) ≤ 1 / 60 ∧
      |(initPlayer : Player ℚ).dirX * stepLength (withSprint forwardKeys initPlayer) (1 / 60)|
        ≤ 1 ∧
      |(initPlayer : Player ℚ).dirY * stepLength (withSprint forwardKeys initPlayer) (1 / 60)|
        ≤ 1 ∧
      ((∀ c ∈ cellsTested (fun _ => 1) (fun _ => 0) borderGrid forwardKeys (1 / 60 : ℚ)
            initPlayer, inBounds c.1 c.2) ∧
        inBounds
          (toInt (handleInput (fun _ => 1) (fun _ => 0) borderGrid forwardKeys (1 / 60 : ℚ)
            initPlayer).posX)
          (toInt (handleInput (fun _ => 1) (fun _ => 0) borderGrid forwardKeys (1 / 60 : ℚ)
            initPlayer).posY)) :=
  ⟨ringOccupied_borderGrid, initPlayer_inEmptyCell, by norm_num,
    by norm_num [stepLength, withSprint, forwardKeys, initPlayer, abs_le],
    by norm_num [stepLength, withSprint, forwardKeys, initPlayer],
    handleInput_tests_in_bounds (fun _ => 1) (fun _ => 0) borderGrid forwardKeys (1 / 60 : ℚ)
      initPlayer ringOccupied_borderGrid initPlayer_inEmptyCell (by norm_num)
      (by norm_num [stepLength, withSprint, forwardKeys, initPlayer, abs_le])
      (by norm_num [stepLength, withSprint, forwardKeys, initPlayer])⟩

/-! ## The DDA loop -/

section DDALoop

variable {α : Type} [LinearOrderedField α] [FloorRing α]

theorem stepOf_cases (d : α) : stepOf d = 1 ∨ stepOf d = -1 := by
  unfold stepOf
  split_ifs <;> simp

/-- One iteration moves exactly one coordinate by its step. -/
theorem ddaStep_cell (stepX stepY : Int) (dX dY : Dist α) (s : DDA α) :
    ((ddaStep stepX stepY dX dY s).mapX = s.mapX + stepX ∧
        (ddaStep stepX stepY dX dY s).mapY = s.mapY) ∨
      ((ddaStep stepX stepY dX dY s).mapX = s.mapX ∧
        (ddaStep stepX stepY dX dY s).mapY = s.mapY + stepY) := by
  unfold ddaStep
  split_ifs
  · exact Or.inl ⟨rfl, rfl⟩
  · exact Or.inr ⟨rfl, rfl⟩

/-- From an interior cell of a grid with an occupied ring the loop exits, on an
occupied cell of the grid, having read only cells of the grid, after at most
`stepsLeft + 1` iterations. -/
theorem ddaLoop_exits (g : Grid) (hr : ringOccupied g) (stepX stepY : Int)
    (hX : stepX = 1 ∨ stepX = -1) (hY : stepY = 1 ∨ stepY = -1) (dX dY : Dist α) :
    ∀ (fuel : Nat) (s : DDA α), 1 ≤ s.mapX → s.mapX ≤ 48 → 1 ≤ s.mapY → s.mapY ≤ 48 →
      stepsLeft stepX stepY s < fuel →
      ∃ r, ddaLoop g stepX stepY dX dY fuel s = some r ∧ occupied g r.1.mapX r.1.mapY ∧
        inBounds r.1.mapX r.1.mapY ∧ (∀ c ∈ r.2, inBounds c.1 c.2) ∧
        (r.1.mapX, r.1.mapY) ∈ r.2 ∧ r.2.length ≤ stepsLeft stepX stepY s + 1 := by
  intro fuel
  induction fuel with
  | zero => intro s _ _ _ _ h; omega
  | succ fuel ih =>
    intro s h1 h2 h3 h4 hfuel
    have hcell := ddaStep_cell stepX stepY dX dY s
    have hb : inBounds (ddaStep stepX stepY dX dY s).mapX (ddaStep stepX stepY dX dY s).mapY := by
      simp only [inBounds, MAP_WIDTH, MAP_HEIGHT]
      rcases hcell with ⟨e1, e2⟩ | ⟨e1, e2⟩ <;> rw [e1, e2] <;>
        rcases hX with rfl | rfl <;> rcases hY with rfl | rfl <;> omega
    rw [ddaLoop]
    by_cases hhit : g (ddaStep stepX stepY dX dY s).mapX (ddaStep stepX stepY dX dY s).mapY > 0
    · rw [if_pos hhit]
      exact ⟨_, rfl, hhit, hb, by simpa using hb, by simp, by simp⟩
    · rw [if_neg hhit]
      obtain ⟨i1, i2, i3, i4⟩ := interior_of_empty g hr _ _ hb (not_lt.1 hhit)
      have hless : stepsLeft stepX stepY (ddaStep stepX stepY dX dY s) + 1 =
          stepsLeft stepX stepY s := by
        unfold stepsLeft
        rcases hcell with ⟨e1, e2⟩ | ⟨e1, e2⟩ <;> simp only [e1, e2] at i1 i2 i3 i4 ⊢ <;>
          rcases hX with rfl | rfl <;> rcases hY with rfl | rfl <;> simp <;> omega
      obtain ⟨r, hr1, hr2, hr3, hr4, hr5, hr6⟩ :=
        ih (ddaStep stepX stepY dX dY s) i1 i2 i3 i4 (by omega)
      refine ⟨(r.1, ((ddaStep stepX stepY dX dY s).mapX, (ddaStep stepX stepY dX dY s).mapY)
        :: r.2), ?_, hr2, hr3, ?_, ?_, ?_⟩
      · rw [hr1]; rfl
      · intro c hc
        rcases List.mem_cons.1 hc with rfl | hc
        · exact hb
        · exact hr4 c hc
      · exact List.mem_cons_of_mem _ hr5
      · simp only [List.length_cons]
        omega

theorem stepsLeft_le (stepX stepY : Int) (s : DDA α) (h1 : 1 ≤ s.mapX) (h2 : s.mapX ≤ 48)
    (h3 : 1 ≤ s.mapY) (h4 : s.mapY ≤ 48) : stepsLeft stepX stepY s ≤ 94 := by
  unfold stepsLeft
  split_ifs <;> omega

/-- A ray cast from an interior cell: the loop exits within `MAP_WIDTH +
MAP_HEIGHT` iterations on an occupied cell, reading only cells of the grid. -/
theorem castRay_exits (g : Grid) (hr : ringOccupied g) (posX posY rayDirX rayDirY : α)
    (h1 : 1 ≤ toInt posX) (h2 : toInt posX ≤ 48) (h3 : 1 ≤ toInt posY) (h4 : toInt posY ≤ 48) :
    ∃ r, castRay g posX posY rayDirX rayDirY 100 = some r ∧ occupied g r.1.mapX r.1.mapY ∧
      inBounds r.1.mapX r.1.mapY ∧ (∀ c ∈ r.2, inBounds c.1 c.2) ∧
      (r.1.mapX, r.1.mapY) ∈ r.2 ∧ r.2.length ≤ 100 := by
  have hs := stepsLeft_le (stepOf rayDirX) (stepOf rayDirY)
    (ddaInit posX posY rayDirX rayDirY) h1 h2 h3 h4
  obtain ⟨r, e, o, b, t, m, l⟩ := ddaLoop_exits g hr (stepOf rayDirX) (stepOf rayDirY)
    (stepOf_cases _) (stepOf_cases _) (deltaDist rayDirX) (deltaDist rayDirY) 100
    (ddaInit posX posY rayDirX rayDirY) h1 h2 h3 h4 (by omega)
  exact ⟨r, e, o, b, t, m, by omega⟩

/-- C2: for every grid whose outer ring is occupied, every player position in
an empty cell and every non-zero ray direction, the DDA loop of `renderFrame`
exits (within `MAP_WIDTH + MAP_HEIGHT` iterations) on an occupied cell, and
every cell index `(mapX, mapY)` it reads, the last one included, is inside the
grid. -/
theorem dda_reaches_wall_in_bounds (g : Grid) (posX posY rayDirX rayDirY : α)
    (hr : ringOccupied g) (hp : inEmptyCell g posX posY)
    (_hd : rayDirX ≠ 0 ∨ rayDirY ≠ 0) :
    ∃ r, castRay g posX posY rayDirX rayDirY (MAP_WIDTH + MAP_HEIGHT).toNat = some r ∧
      occupied g r.1.mapX r.1.mapY ∧ (r.1.mapX, r.1.mapY) ∈ r.2 ∧
      ∀ c ∈ r.2, 0 ≤ c.1 ∧ c.1 < MAP_WIDTH ∧ 0 ≤ c.2 ∧ c.2 < MAP_HEIGHT := by
  obtain ⟨i1, i2, i3, i4⟩ := interior_of_empty g hr _ _ hp.1 (le_of_eq hp.2)
  obtain ⟨r, e, o, -, t, m, -⟩ := castRay_exits g hr posX posY rayDirX rayDirY i1 i2 i3 i4
  exact ⟨r, e, o, m, t⟩

/-- C3, as amended: for every grid whose outer ring is occupied, every
in-bounds player position that is not in a cell of the outer ring, and every
ray direction (zero included), the DDA loop of `renderFrame` exits after at
most `MAP_WIDTH + MAP_HEIGHT` iterations, and the cell on which it exits is an
occupied cell of the grid. -/
theorem dda_terminates_from_interior (g : Grid) (posX posY rayDirX rayDirY : α)
    (hr : ringOccupied g) (hb : inBounds (toInt posX) (toInt posY))
    (hp : ¬ onRing (toInt posX) (toInt posY)) :
    ∃ r, castRay g posX posY rayDirX rayDirY (MAP_WIDTH + MAP_HEIGHT).toNat = some r ∧
      r.2.length ≤ (MAP_WIDTH + MAP_HEIGHT).toNat ∧
      inBounds r.1.mapX r.1.mapY ∧ occupied g r.1.mapX r.1.mapY := by
  have hi : 1 ≤ toInt posX ∧ toInt posX ≤ 48 ∧ 1 ≤ toInt posY ∧ toInt posY ≤ 48 := by
    by_contra hc
    apply hp
    refine ⟨hb, ?_⟩
    obtain ⟨b1, b2, b3, b4⟩ := hb
    simp only [MAP_WIDTH, MAP_HEIGHT] at b2 b4 ⊢
    omega
  obtain ⟨r, e, o, b, -, -, l⟩ :=
    castRay_exits g hr posX posY rayDirX rayDirY hi.1 hi.2.1 hi.2.2.1 hi.2.2.2
  exact ⟨r, e, l, b, o⟩

/-- The factor `mapX + 1.0 - posX` of the initial side distance is positive, so
its product with `+inf` is `+inf`. -/
theorem sideDist0_factor_pos (pos : α) : 0 < ((toInt pos : Int) : α) + 1 - pos := by
  by_cases h : 0 ≤ pos
  · rw [toInt_of_nonneg pos h]
    linarith [Int.lt_floor_add_one pos]
  · rw [toInt, if_neg h]
    linarith [Int.le_ceil pos]

theorem sideDist0_zero (pos : α) : sideDist0 pos (toInt pos) 0 = Dist.inf := by
  simp [sideDist0, deltaDist, Dist.scale]

end DDALoop

theorem toInt_one_half : toInt (1 / 2 : ℚ) = 0 :=
  toInt_eq _ 0 (by norm_num) (by norm_num) (by norm_num)

/-- On the border grid, a ray that steps in `-x` from a column `x <= 0` only
reads cells outside the grid (which hold no wall) and never exits. -/
theorem ddaLoop_leftward (fuel : Nat) :
    ∀ (x : Int) (a : ℚ) (side : Int), x ≤ 0 →
      ddaLoop borderGrid (-1) 1 (Dist.fin 1) Dist.inf fuel
        { mapX := x, mapY := 1, sideDistX := Dist.fin a, sideDistY := Dist.inf, side := side }
        = none := by
  induction fuel with
  | zero => intro x a side _; rfl
  | succ fuel ih =>
    intro x a side hx
    have hout : ¬ onRing (x + -1) 1 := by
      rintro ⟨⟨h, -⟩, -⟩
      omega
    simp only [ddaLoop, ddaStep, Dist.lt, Dist.add, if_true, borderGrid, if_neg hout,
      gt_iff_lt, lt_self_iff_false, if_false, Option.map_eq_none']
    exact ih (x + -1) (a + 1) 0 (by omega)

theorem ddaInit_from_ring :
    ddaInit (1 / 2 : ℚ) (3 / 2) (-1) 0 =
      { mapX := 0, mapY := 1, sideDistX := Dist.fin (1 / 2), sideDistY := Dist.inf,
        side := 0 } := by
  have h1 : deltaDist (-1 : ℚ) = Dist.fin 1 := by
    norm_num [deltaDist]
  have h2 : deltaDist (0 : ℚ) = Dist.inf := by
    simp [deltaDist]
  simp only [ddaInit, sideDist0, toInt_one_half, toInt_three_halves, h1, h2, Dist.scale]
  norm_num

/-- C3 fails as stated: on the grid that is empty inside its occupied ring, the
in-bounds position `(0.5, 1.5)` lies in the ring cell `(0, 1)`; for the ray
direction `(-1, 0)` the first cell the DDA loop reads is `(-1, 1)`, outside the
grid, and `MAP_WIDTH + MAP_HEIGHT` iterations reach no occupied cell. -/
theorem dda_from_ring_cell_leaves_grid :
    ringOccupied borderGrid ∧ inBounds (toInt (1 / 2 : ℚ)) (toInt (3 / 2 : ℚ)) ∧
      (ddaStep (stepOf (-1 : ℚ)) (stepOf (0 : ℚ)) (deltaDist (-1 : ℚ)) (deltaDist (0 : ℚ))
        (ddaInit (1 / 2 : ℚ) (3 / 2) (-1) 0)).mapX = -1 ∧
      castRay borderGrid (1 / 2 : ℚ) (3 / 2) (-1) 0 (MAP_WIDTH + MAP_HEIGHT).toNat = none := by
  have h1 : deltaDist (-1 : ℚ) = Dist.fin 1 := by
    norm_num [deltaDist]
  have h2 : deltaDist (0 : ℚ) = Dist.inf := by
    simp [deltaDist]
  have s1 : stepOf (-1 : ℚ) = -1 := by norm_num [stepOf]
  have s2 : stepOf (0 : ℚ) = 1 := by norm_num [stepOf]
  refine ⟨ringOccupied_borderGrid, ?_, ?_, ?_⟩
  · rw [toInt_one_half, toInt_three_halves]
    decide
  · rw [ddaInit_from_ring, s1, s2, h1, h2]
    simp [ddaStep, Dist.lt]
  · rw [castRay, ddaInit_from_ring, s1, s2, h1, h2]
    exact ddaLoop_leftward _ 0 _ 0 (le_refl _)

theorem dda_reaches_wall_in_bounds_witness :
    ringOccupied borderGrid ∧ inEmptyCell borderGrid (3 / 2 : ℚ) (3 / 2 : ℚ) ∧
      ((1 : ℚ) ≠ 0 ∨ (0 : ℚ) ≠ 0) ∧
      ∃ r, castRay borderGrid (3 / 2 : ℚ) (3 / 2) 1 0 (MAP_WIDTH + MAP_HEIGHT).toNat = some r ∧
        occupied borderGrid r.1.mapX r.1.mapY ∧ (r.1.mapX, r.1.mapY) ∈ r.2 ∧
        ∀ c ∈ r.2, 0 ≤ c.1 ∧ c.1 < MAP_WIDTH ∧ 0 ≤ c.2 ∧ c.2 < MAP_HEIGHT :=
  ⟨ringOccupied_borderGrid, initPlayer_inEmptyCell, Or.inl one_ne_zero,
    dda_reaches_wall_in_bounds borderGrid (3 / 2 : ℚ) (3 / 2) 1 0 ringOccupied_borderGrid
      initPlayer_inEmptyCell (Or.inl one_ne_zero)⟩

theorem dda_terminates_from_interior_witness :
    ringOccupied borderGrid ∧ inBounds (toInt (3 / 2 : ℚ)) (toInt (3 / 2 : ℚ)) ∧
      ¬ onRing (toInt (3 / 2 : ℚ)) (toInt (3 / 2 : ℚ)) ∧
      ∃ r, castRay borderGrid (3 / 2 : ℚ) (3 / 2) 0 0 (MAP_WIDTH + MAP_HEIGHT).toNat = some r ∧
        r.2.length ≤ (MAP_WIDTH + MAP_HEIGHT).toNat ∧
        inBounds r.1.mapX r.1.mapY ∧ occupied borderGrid r.1.mapX r.1.mapY :=
  ⟨ringOccupied_borderGrid, by rw [toInt_three_halves]; decide,
    by rw [toInt_three_halves]; decide,
    dda_terminates_from_interior borderGrid (3 / 2 : ℚ) (3 / 2) 0 0 ringOccupied_borderGrid
      (by rw [toInt_three_halves]; decide) (by rw [toInt_three_halves]; decide)⟩

/-! ## The pixels written for one column -/

theorem setPixel_apply (buf : FrameBuffer) (i : Int) (v : Nat) (j : Int) :
    setPixel buf i v j = if j = i then v else buf j := rfl

theorem mem_intRange (lo hi y : Int) : y ∈ intRange lo hi ↔ lo ≤ y ∧ y < hi := by
  simp only [intRange, List.mem_map, List.mem_range]
  constructor
  · rintro ⟨k, hk, rfl⟩
    omega
  · rintro ⟨h1, h2⟩
    exact ⟨(y - lo).toNat, by omega, by omega⟩

/-- The wall loop leaves alone every pixel that is not in a row
`drawStart <= y < drawEnd` of column `x`. -/
theorem drawWall_untouched (sh : Shading) (x lineHeight : Int) (buf : FrameBuffer) (i : Int)
    (h : ∀ y, drawStart lineHeight ≤ y → y < drawEnd lineHeight → y * WINDOW_WIDTH + x ≠ i) :
    drawWall sh x lineHeight buf i = buf i := by
  unfold drawWall
  refine foldl_invariant (fun b : FrameBuffer => b i = buf i) _ _ ?_ buf rfl
  intro b y hy hb
  rw [mem_intRange] at hy
  rw [setPixel_apply, if_neg (Ne.symm (h y hy.1 hy.2)), hb]

/-- The floor and ceiling loop leaves alone every pixel that is neither in a row
`drawEnd < y < WINDOW_HEIGHT` nor in a mirrored row `WINDOW_HEIGHT - y` of
column `x`. -/
theorem drawFloorCeiling_untouched (sh : Shading) (x lineHeight : Int) (buf : FrameBuffer)
    (i : Int)
    (h : ∀ y, drawEnd lineHeight + 1 ≤ y → y < WINDOW_HEIGHT →
      y * WINDOW_WIDTH + x ≠ i ∧ (WINDOW_HEIGHT - y) * WINDOW_WIDTH + x ≠ i) :
    drawFloorCeiling sh x lineHeight buf i = buf i := by
  unfold drawFloorCeiling
  refine foldl_invariant (fun b : FrameBuffer => b i = buf i) _ _ ?_ buf rfl
  intro b y hy hb
  rw [mem_intRange] at hy
  obtain ⟨h1, h2⟩ := h y hy.1 hy.2
  simp only [setPixel_apply]
  rw [if_neg (Ne.symm h2), if_neg (Ne.symm h1), hb]

theorem drawEnd_range (lineHeight : Int) (h : 0 ≤ lineHeight) :
    540 ≤ drawEnd lineHeight ∧ drawEnd lineHeight ≤ 1079 := by
  have h1 : 0 ≤ Int.tdiv lineHeight 2 := Int.tdiv_nonneg h (by decide)
  have h2 : Int.tdiv 1080 2 = 540 := by decide
  unfold drawEnd
  simp only [WINDOW_HEIGHT, h2]
  split_ifs <;> omega

/-- For every wall height `lineHeight >= 0` and every column `x`, the pass
never writes the pixel of row `drawEnd`: the wall loop stops before it and the
floor loop starts after it. -/
theorem renderColumn_skips_drawEnd (sh : Shading) (x lineHeight : Int) (buf : FrameBuffer)
    (hl : 0 ≤ lineHeight) :
    renderColumn sh x lineHeight buf (drawEnd lineHeight * WINDOW_WIDTH + x) =
      buf (drawEnd lineHeight * WINDOW_WIDTH + x) := by
  obtain ⟨h1, h2⟩ := drawEnd_range lineHeight hl
  unfold renderColumn
  rw [drawFloorCeiling_untouched, drawWall_untouched]
  · intro y _ hy
    simp only [WINDOW_WIDTH]
    omega
  · intro y hy1 hy2
    simp only [WINDOW_WIDTH, WINDOW_HEIGHT] at hy2 ⊢
    constructor <;> omega

/-- C7 fails on the code: for screen column `x = 7` and wall height
`lineHeight = 100` (so `drawStart = 490`, `drawEnd = 590`), whatever the shading
produces, the pass run on the cleared frame buffer leaves the pixels of row
`590` (`drawEnd`) and of row `0` of that column at the cleared value `0`. -/
theorem renderColumn_leaves_cleared_pixels (sh : Shading) (buf : FrameBuffer) :
    drawStart 100 = 490 ∧ drawEnd 100 = 590 ∧
      renderColumn sh 7 100 (clearBuffer buf) (590 * WINDOW_WIDTH + 7) = 0 ∧
      renderColumn sh 7 100 (clearBuffer buf) (0 * WINDOW_WIDTH + 7) = 0 := by
  have hs : drawStart 100 = 490 := by decide
  have he : drawEnd 100 = 590 := by decide
  refine ⟨hs, he, ?_, ?_⟩
  · have h := renderColumn_skips_drawEnd sh 7 100 (clearBuffer buf) (by decide)
    rw [he] at h
    rw [h]
    simp [clearBuffer, WINDOW_WIDTH, WINDOW_HEIGHT]
  · unfold renderColumn
    rw [drawFloorCeiling_untouched, drawWall_untouched]
    · simp [clearBuffer, WINDOW_WIDTH, WINDOW_HEIGHT]
    · intro y hy _
      rw [hs] at hy
      simp only [WINDOW_WIDTH]
      omega
    · intro y hy1 hy2
      rw [he] at hy1
      simp only [WINDOW_WIDTH, WINDOW_HEIGHT] at hy2 ⊢
      constructor <;> omega

/-! ## Stamina and sprint of one frame -/

section FrameStamina

variable {α : Type} [LinearOrderedField α] [FloorRing α]

/-- The stamina after `updatePlayerStamina`, as a clamped sum. -/
theorem updatePlayerStamina_stamina (dt : α) (q : Player α) :
    (updatePlayerStamina dt q).stamina =
      if q.sprinting = true then max 0 (q.stamina - 30 * dt) else min 100 (q.stamina + 10 * dt) := by
  unfold updatePlayerStamina
  simp only
  split_ifs with h1 h2 h2
  · simp only at h2 ⊢
    rw [max_eq_left (le_of_lt h2)]
  · simp only at h2 ⊢
    rw [max_eq_right (not_lt.1 h2)]
  · simp only at h2 ⊢
    rw [min_eq_left (le_of_lt h2)]
  · simp only at h2 ⊢
    rw [min_eq_right (not_lt.1 h2)]

theorem frame_stamina (cos sin : α → α) (g : Grid) (keys : Keys) (dt : α) (p : Player α) :
    (frame cos sin g p (keys, dt)).stamina =
      if keys.lshift = true ∧ p.stamina > 0 then max 0 (p.stamina - 30 * dt)
      else min 100 (p.stamina + 10 * dt) := by
  unfold frame
  rw [updatePlayerStamina_stamina, (handleInput_stamina cos sin g keys dt p).1,
    (handleInput_stamina cos sin g keys dt p).2]
  simp only [Bool.and_eq_true, decide_eq_true_eq]

/-- C11: for every stamina `s` in `[0, 100]` and every `dt >= 0`, one frame
(`handleInput` then `updatePlayerStamina`) yields the stamina
`max (0, s - 30*dt)` when the sprint key is held and `s > 0`, and
`min (100, s + 10*dt)` otherwise; from `s = 100` a frame of `1.0` s with sprint
held gives `70`, and a following frame of `1.0` s with sprint released gives
`80`. -/
theorem frame_stamina_formula (cos sin : α → α) (g : Grid) (keys : Keys) (dt : α)
    (p : Player α) (_hs : 0 ≤ p.stamina ∧ p.stamina ≤ 100) (_hdt : 0 ≤ dt) :
    (frame cos sin g p (keys, dt)).stamina =
        (if keys.lshift = true ∧ p.stamina > 0 then max 0 (p.stamina - 30 * dt)
         else min 100 (p.stamina + 10 * dt)) ∧
      ∀ (held released : Keys) (q : Player α), held.lshift = true →
        released.lshift = false → q.stamina = 100 →
        (frame cos sin g q (held, 1)).stamina = 70 ∧
          (frame cos sin g (frame cos sin g q (held, 1)) (released, 1)).stamina = 80 := by
  refine ⟨frame_stamina cos sin g keys dt p, ?_⟩
  intro held released q hh hr hq
  have h70 : (frame cos sin g q (held, 1)).stamina = 70 := by
    rw [frame_stamina, hq, hh, if_pos ⟨rfl, by norm_num⟩]
    norm_num
  refine ⟨h70, ?_⟩
  rw [frame_stamina, h70, hr, if_neg (by simp)]
  norm_num

/-- C14: after `handleInput`, `player.sprinting` is true exactly when the
sprint key is held and the stamina on entry is positive; the step length
passed to the two translation blocks of that frame is `moveSpeed * dt * 60`
when not sprinting and twice that when sprinting. -/
theorem handleInput_sprint (cos sin : α → α) (g : Grid) (keys : Keys) (dt : α)
    (p : Player α) :
    ((handleInput cos sin g keys dt p).sprinting = true ↔
        (keys.lshift = true ∧ p.stamina > 0)) ∧
      (∃ m : α,
        m = (if (handleInput cos sin g keys dt p).sprinting = true
              then 2 * (p.moveSpeed * dt * 60) else p.moveSpeed * dt * 60) ∧
        handleInputTraced cos sin g keys dt p =
          (rotateLeft cos sin keys (p.rotSpeed * dt * 60)
            (rotateRight cos sin keys (p.rotSpeed * dt * 60)
              (moveBackward g keys m (moveForward g keys m (withSprint keys p)).1).1),
            (moveForward g keys m (withSprint keys p)).2 ++
              (moveBackward g keys m (moveForward g keys m (withSprint keys p)).1).2)) := by
  have hs := (handleInput_stamina cos sin g keys dt p).2
  refine ⟨?_, stepLength (withSprint keys p) dt, ?_, handleInputTraced_eq cos sin g keys dt p⟩
  · rw [hs]
    simp only [Bool.and_eq_true, decide_eq_true_eq]
  · rw [hs]
    unfold stepLength withSprint
    simp only
    split_ifs <;> ring

end FrameStamina

theorem frame_stamina_formula_witness :
    ((0 : ℚ) ≤ (initPlayer : Player ℚ).stamina ∧ (initPlayer : Player ℚ).stamina ≤ 100) ∧
      (0 : ℚ) ≤ 1 / 2 ∧
      ((frame (fun _ => 1) (fun _ => 0) borderGrid (initPlayer : Player ℚ)
          (sprintKeys, 1 / 2)).stamina =
          (if sprintKeys.lshift = true ∧ (initPlayer : Player ℚ).stamina > 0
            then max 0 ((initPlayer : Player ℚ).stamina - 30 * (1 / 2))
            else min 100 ((initPlayer : Player ℚ).stamina + 10 * (1 / 2))) ∧
        ∀ (held released : Keys) (q : Player ℚ), held.lshift = true →
          released.lshift = false → q.stamina = 100 →
          (frame (fun _ => 1) (fun _ => 0) borderGrid q (held, 1)).stamina = 70 ∧
            (frame (fun _ => 1) (fun _ => 0) borderGrid
              (frame (fun _ => 1) (fun _ => 0) borderGrid q (held, 1)) (released, 1)).stamina
              = 80) :=
  ⟨by norm_num [initPlayer], by norm_num,
    frame_stamina_formula (fun _ => 1) (fun _ => 0) borderGrid sprintKeys (1 / 2 : ℚ)
      initPlayer (by norm_num [initPlayer]) (by norm_num)⟩

/-! ## Wall sliding -/

section WallSlide

variable {α : Type} [LinearOrderedField α] [FloorRing α]

/-- The position after the two guarded assignments of a move. -/
theorem translate_pos (g : Grid) (p : Player α) (newX newY : α) :
    (translate g p newX newY).1.posX =
        (if g (toInt newX) (toInt p.posY) = 0 then newX else p.posX) ∧
      (translate g p newX newY).1.posY =
        (if g (toInt (if g (toInt newX) (toInt p.posY) = 0 then newX else p.posX))
            (toInt newY) = 0 then newY else p.posY) := by
  unfold translate
  simp only
  split_ifs <;> simp_all

/-- C12, as amended: for a forward or backward move of `handleInput` with
candidate position `(newX, newY)` (the two guarded assignments `translate`): if
the cell `map[(int)newX][(int)posY]` is occupied and the cell
`map[(int)posX][(int)newY]` is empty, then `posX` is left unchanged and `posY`
becomes `newY`; if the cell `map[(int)newX][(int)posY]` is empty and the cell
`map[(int)newX][(int)newY]`, which is the cell the second test reads once
`posX` has become `newX`, is occupied, then `posX` becomes `newX` and `posY` is
left unchanged. The forward and backward blocks are this move at their own
candidates. -/
theorem translate_wall_slide (g : Grid) (p : Player α) (newX newY : α) :
    (g (toInt newX) (toInt p.posY) ≠ 0 → g (toInt p.posX) (toInt newY) = 0 →
        (translate g p newX newY).1.posX = p.posX ∧
          (translate g p newX newY).1.posY = newY) ∧
      (g (toInt newX) (toInt p.posY) = 0 → g (toInt newX) (toInt newY) ≠ 0 →
        (translate g p newX newY).1.posX = newX ∧
          (translate g p newX newY).1.posY = p.posY) ∧
      (∀ (keys : Keys) (m : α), keys.w = true →
        moveForward g keys m p =
          translate g p (p.posX + p.dirX * m) (p.posY + p.dirY * m)) ∧
      (∀ (keys : Keys) (m : α), keys.s = true →
        moveBackward g keys m p =
          translate g p (p.posX - p.dirX * m) (p.posY - p.dirY * m)) := by
  obtain ⟨hx, hy⟩ := translate_pos g p newX newY
  refine ⟨?_, ?_, ?_, ?_⟩
  · intro h1 h2
    rw [hx, hy, if_neg h1, if_pos h2]
    exact ⟨rfl, rfl⟩
  · intro h1 h2
    rw [hx, hy, if_pos h1, if_neg h2]
    exact ⟨rfl, rfl⟩
  · intro keys m hw
    rw [moveForward, if_pos hw]
  · intro keys m hs
    rw [moveBackward, if_pos hs]

end WallSlide

theorem toInt_cornerPlayer :
    toInt (19 / 10 : ℚ) = 1 ∧ toInt (41 / 20 : ℚ) = 2 ∧ toInt (21 / 10 : ℚ) = 2 :=
  ⟨toInt_eq _ 1 (by norm_num) (by norm_num) (by norm_num),
    toInt_eq _ 2 (by norm_num) (by norm_num) (by norm_num),
    toInt_eq _ 2 (by norm_num) (by norm_num) (by norm_num)⟩

/-- C12 fails as stated in its second half: on the border grid with a wall in
cell `(1, 2)`, the player at `(1.9, 1.9)` facing `(0.6, 0.8)` moves forward by
`0.25` (W held, `dt = 1/12`), so the candidate is `(2.05, 2.1)`. The
x-destination cell `map[2][1]` is empty and the y-destination cell `map[1][2]`
is occupied, yet `posY` becomes `2.1`: after `posX` has become `2.05` the second
test reads `map[2][2]`, which is empty. -/
theorem handleInput_cuts_corner :
    stepLength (withSprint forwardKeys cornerPlayer) (1 / 12) = 1 / 4 ∧
      cornerPlayer.posX + cornerPlayer.dirX * (1 / 4) = 41 / 20 ∧
      cornerPlayer.posY + cornerPlayer.dirY * (1 / 4) = 21 / 10 ∧
      cornerGrid (toInt (41 / 20 : ℚ)) (toInt cornerPlayer.posY) = 0 ∧
      occupied cornerGrid (toInt cornerPlayer.posX) (toInt (21 / 10 : ℚ)) ∧
      (handleInput (fun _ => 1) (fun _ => 0) cornerGrid forwardKeys (1 / 12) cornerPlayer).posX
        = 41 / 20 ∧
      (handleInput (fun _ => 1) (fun _ => 0) cornerGrid forwardKeys (1 / 12) cornerPlayer).posY
        = 21 / 10 ∧
      (handleInput (fun _ => 1) (fun _ => 0) cornerGrid forwardKeys (1 / 12) cornerPlayer).posY
        ≠ cornerPlayer.posY := by
  obtain ⟨t1, t2, t3⟩ := toInt_cornerPlayer
  have hm : stepLength (withSprint forwardKeys cornerPlayer) (1 / 12) = 1 / 4 := by
    norm_num [stepLength, withSprint, forwardKeys, cornerPlayer]
  have hnx : cornerPlayer.posX + cornerPlayer.dirX * (1 / 4) = 41 / 20 := by
    norm_num [cornerPlayer]
  have hny : cornerPlayer.posY + cornerPlayer.dirY * (1 / 4) = 21 / 10 := by
    norm_num [cornerPlayer]
  have hpx : cornerPlayer.posX = 19 / 10 := rfl
  have hpy : cornerPlayer.posY = 19 / 10 := rfl
  have hmove : moveForward cornerGrid forwardKeys (1 / 4) (withSprint forwardKeys cornerPlayer)
      = translate cornerGrid (withSprint forwardKeys cornerPlayer) (41 / 20) (21 / 10) := by
    rw [moveForward, if_pos (show forwardKeys.w = true from rfl)]
    show translate cornerGrid (withSprint forwardKeys cornerPlayer)
      (cornerPlayer.posX + cornerPlayer.dirX * (1 / 4))
      (cornerPlayer.posY + cornerPlayer.dirY * (1 / 4)) = _
    rw [hnx, hny]
  have hpos := translate_pos cornerGrid (withSprint forwardKeys cornerPlayer) (41 / 20) (21 / 10)
  have hq : (withSprint forwardKeys cornerPlayer).posY = 19 / 10 := rfl
  rw [hq, t1, t2, t3, if_pos (by decide), t2, if_pos (by decide)] at hpos
  have hX : (handleInput (fun _ => 1) (fun _ => 0) cornerGrid forwardKeys (1 / 12)
      cornerPlayer).posX = 41 / 20 := by
    rw [handleInput, handleInputTraced_eq, hm]
    simp only [(rotateLeft_pos _ _ forwardKeys _ _).1, (rotateRight_pos _ _ forwardKeys _ _).1]
    rw [hmove]
    rw [moveBackward, if_neg (show ¬ forwardKeys.s = true by decide)]
    exact hpos.1
  have hY : (handleInput (fun _ => 1) (fun _ => 0) cornerGrid forwardKeys (1 / 12)
      cornerPlayer).posY = 21 / 10 := by
    rw [handleInput, handleInputTraced_eq, hm]
    simp only [(rotateLeft_pos _ _ forwardKeys _ _).2, (rotateRight_pos _ _ forwardKeys _ _).2]
    rw [hmove]
    rw [moveBackward, if_neg (show ¬ forwardKeys.s = true by decide)]
    exact hpos.2
  refine ⟨hm, hnx, hny, ?_, ?_, hX, hY, ?_⟩
  · rw [t2, hpy, t1]
    decide
  · rw [hpx, t1, t3]
    decide
  · rw [hY, hpy]
    norm_num

/-! ## Cell values and cells written by generateMaze -/

theorem texture_code_range (n : Nat) :
    (1 : Int) ≤ ((n % NUM_TEXTURES : Nat) : Int) + 1 ∧
      ((n % NUM_TEXTURES : Nat) : Int) + 1 ≤ NUM_TEXTURES := by
  have h : n % NUM_TEXTURES < 4 := Nat.mod_lt _ (by decide)
  simp only [NUM_TEXTURES] at h ⊢
  omega

theorem dx_or_dy_zero (dir : Nat) : dx dir = 0 ∨ dy dir = 0 := by
  match dir with
  | 0 => right; rfl
  | 1 => left; rfl
  | 2 => right; rfl
  | _ + 3 => left; rfl

/-- A property of the map kept by every write of `mazeWrite` is kept by one
arm cell. -/
theorem armCell_invariant (P : Grid → Prop)
    (hP : ∀ g x y v, P g → mazeWrite x y v → P (setCell g x y v))
    (rand : Nat → Nat) (i j : Int) (hi : i % 2 = 0) (hj : j % 2 = 0) (dir : Nat)
    (s : MazeState) (k : Nat) (hs : P s.map) : P (armCell rand i j dir s k).map := by
  unfold armCell
  simp only [draw]
  split_ifs with h
  · refine hP _ _ _ _ hs ⟨h, ?_, ?_⟩
    · have := texture_code_range (rand s.draws)
      omega
    · intro _
      rcases dx_or_dy_zero dir with h0 | h0
      · left; rw [h0]; simpa using hi
      · right; rw [h0]; simpa using hj
  · exact hs

theorem pillar_invariant (P : Grid → Prop)
    (hP : ∀ g x y v, P g → mazeWrite x y v → P (setCell g x y v))
    (rand : Nat → Nat) (i j : Int) (hi : i ∈ seedCoords) (hj : j ∈ seedCoords)
    (s : MazeState) (hs : P s.map) : P (pillar rand i j s).map := by
  obtain ⟨i1, i2, i3⟩ := mem_seedCoords i hi
  obtain ⟨j1, j2, j3⟩ := mem_seedCoords j hj
  unfold pillar
  simp only [draw]
  have h1 : ∀ n : Nat, P (setCell s.map i j (((n % NUM_TEXTURES : Nat) : Int) + 1)) := by
    intro n
    have := texture_code_range n
    refine hP _ _ _ _ hs ⟨?_, ?_, ?_⟩
    · simp only [MAP_WIDTH, MAP_HEIGHT]; omega
    · omega
    · intro _; left; exact i3
  split_ifs
  · refine foldl_invariant (fun s : MazeState => P s.map) _ _ ?_ _ (h1 _)
    intro s k _ hs
    exact armCell_invariant P hP rand i j i3 j3 _ s k hs
  · exact h1 _
  · exact hs

/-- A property of the map that holds after the ring loops and is kept by every
write of `mazeWrite` holds of the map built by `generateMaze`. -/
theorem generateMaze_invariant (P : Grid → Prop)
    (hP : ∀ g x y v, P g → mazeWrite x y v → P (setCell g x y v))
    (rand : Nat → Nat) (g : Grid) (h0 : P (stampRows (stampColumns (clearMap g)))) :
    P (generateMaze rand g) := by
  unfold generateMaze
  have h : P (seedCoords.foldl (pillarRow rand)
      { map := stampRows (stampColumns (clearMap g)), draws := 0 }).map := by
    refine foldl_invariant (fun s : MazeState => P s.map) _ _ ?_ _ h0
    intro s i hi hs
    unfold pillarRow
    refine foldl_invariant (fun s : MazeState => P s.map) _ _ ?_ s hs
    intro s j hj hs
    exact pillar_invariant P hP rand i j hi hj s hs
  have hw : ∀ x y : Int, (x = 1 ∨ x = 2) → (y = 1 ∨ y = 2) → ¬ (x = 2 ∧ y = 2) →
      mazeWrite x y 0 := by
    intro x y hx hy _
    refine ⟨?_, ?_, fun h => absurd rfl h⟩
    · simp only [MAP_WIDTH, MAP_HEIGHT]; omega
    · simp [NUM_TEXTURES]
  exact hP _ _ _ _ (hP _ _ _ _ (hP _ _ _ _ h (hw 1 1 (by simp) (by simp) (by simp)))
    (hw 1 2 (by simp) (by simp) (by simp))) (hw 2 1 (by simp) (by simp) (by simp))

/-- The cell `(a, b)` of the map after the two ring loops, from its value
before them. -/
theorem stamp_invariant (Q : Int → Prop) (h1 : Q 1) (g : Grid) (a b : Int) (h : Q (g a b)) :
    Q (stampRows (stampColumns g) a b) := by
  have hc : Q (stampColumns g a b) := by
    unfold stampColumns
    refine foldl_invariant (fun g : Grid => Q (g a b)) _ _ ?_ g h
    intro s x _ hs
    simp only [setCell_apply]
    split_ifs <;> assumption
  unfold stampRows
  refine foldl_invariant (fun g : Grid => Q (g a b)) _ _ ?_ _ hc
  intro s x _ hs
  simp only [setCell_apply]
  split_ifs <;> assumption

/-- The ring loops leave a cell strictly inside the ring as it was. -/
theorem stamp_interior (g : Grid) (a b : Int) (ha : 0 < a ∧ a < MAP_WIDTH - 1)
    (hb : 0 < b ∧ b < MAP_HEIGHT - 1) : stampRows (stampColumns g) a b = g a b := by
  simp only [MAP_WIDTH, MAP_HEIGHT] at ha hb
  have hc : stampColumns g a b = g a b := by
    unfold stampColumns
    refine foldl_invariant (fun s : Grid => s a b = g a b) _ _ ?_ g rfl
    intro s x _ hs
    simp only [setCell_apply, MAP_HEIGHT]
    rw [if_neg (by omega), if_neg (by omega), hs]
  unfold stampRows
  refine foldl_invariant (fun s : Grid => s a b = g a b) _ _ ?_ _ hc
  intro s x _ hs
  simp only [setCell_apply, MAP_WIDTH]
  rw [if_neg (by omega), if_neg (by omega), hs]

/-- C15: for every stream of (non-negative) `rand ()` values, every cell of the
map holds a value in `0 .. NUM_TEXTURES` after `generateMaze`, so for every
occupied cell the texture id `cell - 1` read by `renderFrame` is in
`0 .. NUM_TEXTURES - 1`. -/
theorem generateMaze_cell_codes (rand : Nat → Nat) (g : Grid) (x y : Int)
    (h : inBounds x y) :
    (0 ≤ generateMaze rand g x y ∧ generateMaze rand g x y ≤ NUM_TEXTURES) ∧
      (occupied (generateMaze rand g) x y →
        0 ≤ generateMaze rand g x y - 1 ∧ generateMaze rand g x y - 1 < NUM_TEXTURES) := by
  have hr : 0 ≤ generateMaze rand g x y ∧ generateMaze rand g x y ≤ NUM_TEXTURES := by
    refine generateMaze_invariant (fun m : Grid => 0 ≤ m x y ∧ m x y ≤ NUM_TEXTURES) ?_ rand g ?_
    · intro m a b v hm hw
      simp only [setCell_apply]
      split_ifs
      · exact hw.2.1
      · exact hm
    · refine stamp_invariant (fun v : Int => 0 ≤ v ∧ v ≤ NUM_TEXTURES) (by simp [NUM_TEXTURES])
        _ x y ?_
      simp [clearMap, h, NUM_TEXTURES]
  refine ⟨hr, fun ho => ?_⟩
  unfold occupied at ho
  omega

theorem generateMaze_cell_codes_witness :
    inBounds 4 6 ∧
      ((0 ≤ generateMaze (fun n => 3 * n) (fun _ _ => 9) 4 6 ∧
          generateMaze (fun n => 3 * n) (fun _ _ => 9) 4 6 ≤ NUM_TEXTURES) ∧
        (occupied (generateMaze (fun n => 3 * n) (fun _ _ => 9)) 4 6 →
          0 ≤ generateMaze (fun n => 3 * n) (fun _ _ => 9) 4 6 - 1 ∧
            generateMaze (fun n => 3 * n) (fun _ _ => 9) 4 6 - 1 < NUM_TEXTURES)) :=
  ⟨by decide, generateMaze_cell_codes (fun n => 3 * n) (fun _ _ => 9) 4 6 (by decide)⟩

/-- C20: for every stream of `rand ()` values, every interior cell with two odd
coordinates (`x`, `y` odd in `1 .. MAP_WIDTH - 3`) is empty after
`generateMaze`: seeds are placed at even-even cells and an arm changes one
coordinate only, so no wall code is written to an odd-odd cell. -/
theorem generateMaze_odd_cells_empty (rand : Nat → Nat) (g : Grid) (x y : Int)
    (hx : 1 ≤ x ∧ x ≤ MAP_WIDTH - 3) (hy : 1 ≤ y ∧ y ≤ MAP_HEIGHT - 3) (hxo : x % 2 = 1)
    (hyo : y % 2 = 1) : generateMaze rand g x y = 0 := by
  simp only [MAP_WIDTH, MAP_HEIGHT] at hx hy
  refine generateMaze_invariant (fun m : Grid => m x y = 0) ?_ rand g ?_
  · intro m a b v hm hw
    simp only [setCell_apply]
    split_ifs with hab
    · obtain ⟨rfl, rfl⟩ := hab
      by_contra hv
      have := hw.2.2 hv
      omega
    · exact hm
  · show stampRows (stampColumns (clearMap g)) x y = 0
    rw [stamp_interior _ x y (by simp only [MAP_WIDTH]; omega) (by simp only [MAP_HEIGHT]; omega)]
    have hb : inBounds x y := by
      simp only [inBounds, MAP_WIDTH, MAP_HEIGHT]; omega
    simp [clearMap, hb]

theorem generateMaze_odd_cells_empty_witness :
    ((1 : Int) ≤ 47 ∧ (47 : Int) ≤ MAP_WIDTH - 3) ∧ ((1 : Int) ≤ 3 ∧ (3 : Int) ≤ MAP_HEIGHT - 3) ∧
      (47 : Int) % 2 = 1 ∧ (3 : Int) % 2 = 1 ∧
      generateMaze (fun n => 3 * n) (fun _ _ => 9) 47 3 = 0 :=
  ⟨by decide, by decide, by decide, by decide,
    generateMaze_odd_cells_empty (fun n => 3 * n) (fun _ _ => 9) 47 3 (by decide) (by decide)
      (by decide) (by decide)⟩

/-! ## Determinism of generateMaze -/

/-- A relation kept by every step of two left folds over the same list holds
of their results. -/
theorem foldl_relation {σ β : Type} (R : σ → σ → Prop) (f : σ → β → σ) (l : List β)
    (hf : ∀ s t b, R s t → R (f s b) (f t b)) (s t : σ) (h0 : R s t) :
    R (l.foldl f s) (l.foldl f t) := by
  induction l generalizing s t with
  | nil => simpa using h0
  | cons b l ih =>
    simp only [List.foldl_cons]
    exact ih _ _ (hf s t b h0)

theorem setCell_agree (g h : Grid) (x y v a b : Int) (hab : g a b = h a b) :
    setCell g x y v a b = setCell h x y v a b := by
  simp only [setCell_apply, hab]

theorem armCell_agree (rand : Nat → Nat) (i j : Int) (dir : Nat) (a b : Int)
    (s t : MazeState) (k : Nat) (h : s.draws = t.draws ∧ s.map a b = t.map a b) :
    (armCell rand i j dir s k).draws = (armCell rand i j dir t k).draws ∧
      (armCell rand i j dir s k).map a b = (armCell rand i j dir t k).map a b := by
  unfold armCell
  simp only [draw, h.1]
  split_ifs
  · exact ⟨rfl, setCell_agree _ _ _ _ _ _ _ h.2⟩
  · exact h

theorem pillar_agree (rand : Nat → Nat) (i j : Int) (a b : Int) (s t : MazeState)
    (h : s.draws = t.draws ∧ s.map a b = t.map a b) :
    (pillar rand i j s).draws = (pillar rand i j t).draws ∧
      (pillar rand i j s).map a b = (pillar rand i j t).map a b := by
  unfold pillar
  simp only [draw, h.1]
  split_ifs
  · refine foldl_relation
      (fun s t : MazeState => s.draws = t.draws ∧ s.map a b = t.map a b) _ _ ?_ _ _ ?_
    · intro s t k hst
      exact armCell_agree rand i j _ a b s t k hst
    · exact ⟨rfl, setCell_agree _ _ _ _ _ _ _ h.2⟩
  · exact ⟨rfl, setCell_agree _ _ _ _ _ _ _ h.2⟩
  · exact ⟨rfl, h.2⟩

theorem stamp_agree (g h : Grid) (a b : Int) (hab : g a b = h a b) :
    stampRows (stampColumns g) a b = stampRows (stampColumns h) a b := by
  unfold stampRows stampColumns
  refine foldl_relation (fun s t : Grid => s a b = t a b) _ _ ?_ _ _ ?_
  · intro s t y hst
    exact setCell_agree _ _ _ _ _ _ _ (setCell_agree _ _ _ _ _ _ _ hst)
  · refine foldl_relation (fun s t : Grid => s a b = t a b) _ _ ?_ _ _ hab
    intro s t x hst
    exact setCell_agree _ _ _ _ _ _ _ (setCell_agree _ _ _ _ _ _ _ hst)

/-- C16: `generateMaze` is a function of its `rand ()` values: two invocations
that receive the same stream of values yield the same grid, cell by cell,
whatever the two maps held before. -/
theorem generateMaze_deterministic (rand : Nat → Nat) (g h : Grid) (x y : Int)
    (hb : inBounds x y) : generateMaze rand g x y = generateMaze rand h x y := by
  have h0 : clearMap g x y = clearMap h x y := by simp [clearMap, hb]
  have h1 := stamp_agree _ _ x y h0
  have h2 : (seedCoords.foldl (pillarRow rand)
        { map := stampRows (stampColumns (clearMap g)), draws := 0 }).draws =
      (seedCoords.foldl (pillarRow rand)
        { map := stampRows (stampColumns (clearMap h)), draws := 0 }).draws ∧
      (seedCoords.foldl (pillarRow rand)
        { map := stampRows (stampColumns (clearMap g)), draws := 0 }).map x y =
      (seedCoords.foldl (pillarRow rand)
        { map := stampRows (stampColumns (clearMap h)), draws := 0 }).map x y := by
    refine foldl_relation
      (fun s t : MazeState => s.draws = t.draws ∧ s.map x y = t.map x y) _ _ ?_ _ _ ⟨rfl, h1⟩
    intro s t i hst
    unfold pillarRow
    refine foldl_relation
      (fun s t : MazeState => s.draws = t.draws ∧ s.map x y = t.map x y) _ _ ?_ _ _ hst
    intro s t j hst
    exact pillar_agree rand i j x y s t hst
  unfold generateMaze
  exact setCell_agree _ _ _ _ _ _ _ (setCell_agree _ _ _ _ _ _ _
    (setCell_agree _ _ _ _ _ _ _ h2.2))

theorem generateMaze_deterministic_witness :
    inBounds 2 2 ∧
      generateMaze (fun n => 3 * n) (fun _ _ => 9) 2 2 =
        generateMaze (fun n => 3 * n) (fun a b => a + b) 2 2 :=
  ⟨by decide, generateMaze_deterministic (fun n => 3 * n) (fun _ _ => 9) (fun a b => a + b) 2 2
    (by decide)⟩

/-! ## Opacity of the textures -/

theorem texelSpec_alpha (t x y : Nat) : texelSpec t x y >>> 24 = 0xFF := by
  have hv : (x * y) % 64 < 64 := Nat.mod_lt _ (by decide)
  rw [Nat.shiftRight_eq_div_pow]
  unfold texelSpec argb
  split_ifs <;> omega

/-- C17: after `generateTextures`, whatever the textures held before, for
every texture `t` in `0 .. 3` and every index `i` in
`0 .. TEXTURE_SIZE * TEXTURE_SIZE - 1` the top byte of `textures[t][i]` is
`0xFF`; the metal channel value stays below `256` and does not reach the alpha
byte. -/
theorem generateTextures_opaque (tex : Textures) (t i : Nat) (ht : t < NUM_TEXTURES)
    (hi : i < TEXTURE_SIZE * TEXTURE_SIZE) :
    generateTextures tex t i >>> 24 = 0xFF ∧ (i % 64 * (i / 64)) % 64 + 128 < 256 := by
  simp only [NUM_TEXTURES, TEXTURE_SIZE] at ht hi
  have hx : i % 64 < 64 := Nat.mod_lt _ (by decide)
  have hy : i / 64 < 64 := by omega
  have hidx : i / 64 * 64 + i % 64 = i := by omega
  have h := generateTextures_apply tex t (i % 64) (i / 64) ht hx hy
  rw [hidx] at h
  rw [h, texel_eq_spec _ _ _ ht]
  exact ⟨texelSpec_alpha _ _ _, by omega⟩

theorem generateTextures_opaque_witness :
    (3 : Nat) < NUM_TEXTURES ∧ (4095 : Nat) < TEXTURE_SIZE * TEXTURE_SIZE ∧
      (generateTextures (fun _ _ => 0) 3 4095 >>> 24 = 0xFF ∧
        (4095 % 64 * (4095 / 64)) % 64 + 128 < 256) :=
  ⟨by decide, by decide,
    generateTextures_opaque (fun _ _ => 0) 3 4095 (by decide) (by decide)⟩

/-! ## The wall span and the texture coordinates -/

theorem drawStart_range (lineHeight : Int) (h : 0 ≤ lineHeight) :
    0 ≤ drawStart lineHeight ∧ drawStart lineHeight ≤ 540 := by
  have h1 : 0 ≤ Int.tdiv lineHeight 2 := Int.tdiv_nonneg h (by decide)
  have h2 : Int.tdiv 1080 2 = 540 := by decide
  unfold drawStart
  simp only [WINDOW_HEIGHT, h2, Int.neg_tdiv]
  split_ifs <;> omega

/-- C18: for every wall height `lineHeight >= 0`, the clipped span satisfies
`0 <= drawStart <= drawEnd <= WINDOW_HEIGHT - 1`, so for every column `x` of
the screen every index `y * WINDOW_WIDTH + x` written by the wall loop
(`drawStart <= y < drawEnd`) is inside the frame buffer. -/
theorem drawSpan_in_buffer (x lineHeight : Int) (hl : 0 ≤ lineHeight)
    (hx : 0 ≤ x ∧ x < WINDOW_WIDTH) :
    (0 ≤ drawStart lineHeight ∧ drawStart lineHeight ≤ drawEnd lineHeight ∧
        drawEnd lineHeight ≤ WINDOW_HEIGHT - 1) ∧
      ∀ y, y ∈ intRange (drawStart lineHeight) (drawEnd lineHeight) →
        0 ≤ y * WINDOW_WIDTH + x ∧ y * WINDOW_WIDTH + x < WINDOW_WIDTH * WINDOW_HEIGHT := by
  obtain ⟨s1, s2⟩ := drawStart_range lineHeight hl
  obtain ⟨e1, e2⟩ := drawEnd_range lineHeight hl
  refine ⟨⟨s1, by omega, by simp only [WINDOW_HEIGHT]; omega⟩, ?_⟩
  intro y hy
  rw [mem_intRange] at hy
  simp only [WINDOW_WIDTH, WINDOW_HEIGHT] at hx ⊢
  omega

theorem drawSpan_in_buffer_witness :
    (0 : Int) ≤ 100 ∧ ((0 : Int) ≤ 7 ∧ (7 : Int) < WINDOW_WIDTH) ∧
      ((0 ≤ drawStart 100 ∧ drawStart 100 ≤ drawEnd 100 ∧ drawEnd 100 ≤ WINDOW_HEIGHT - 1) ∧
        ∀ y, y ∈ intRange (drawStart 100) (drawEnd 100) →
          0 ≤ y * WINDOW_WIDTH + 7 ∧ y * WINDOW_WIDTH + 7 < WINDOW_WIDTH * WINDOW_HEIGHT) :=
  ⟨by decide, by decide, drawSpan_in_buffer 7 100 (by decide) (by decide)⟩

/-- The operation `n & 63` on an `int` yields a value in `0 .. 63`, also for a
negative `n`. -/
theorem land_63_range (n : Int) : 0 ≤ Int.land n 63 ∧ Int.land n 63 ≤ 63 := by
  cases n with
  | ofNat m =>
    show 0 ≤ ((m &&& 63 : Nat) : Int) ∧ ((m &&& 63 : Nat) : Int) ≤ 63
    have : m &&& 63 ≤ 63 := Nat.and_le_right
    omega
  | negSucc m =>
    show 0 ≤ ((Nat.ldiff 63 m : Nat) : Int) ∧ ((Nat.ldiff 63 m : Nat) : Int) ≤ 63
    have : Nat.ldiff 63 m < 2 ^ 6 := by
      apply Nat.lt_pow_two_of_testBit
      intro i hi
      rw [Nat.testBit_ldiff]
      have h63 : Nat.testBit 63 i = false := by
        apply Nat.testBit_lt_two_pow
        calc 63 < 2 ^ 6 := by decide
          _ ≤ 2 ^ i := Nat.pow_le_pow_right (by decide) hi
      simp [h63]
    omega

section TextureIndex

variable {α : Type} [LinearOrderedField α] [FloorRing α]

theorem wallX_range (posX posY rayDirX rayDirY perp : α) (side : Int) :
    0 ≤ wallX posX posY rayDirX rayDirY perp side ∧
      wallX posX posY rayDirX rayDirY perp side < 1 := by
  unfold wallX
  simp only
  constructor
  · linarith [Int.floor_le (if side = 0 then posY + perp * rayDirY else posX + perp * rayDirX)]
  · linarith [Int.lt_floor_add_one
      (if side = 0 then posY + perp * rayDirY else posX + perp * rayDirX)]

theorem texX0_range (w : α) (h0 : 0 ≤ w) (h1 : w < 1) : 0 ≤ texX0 w ∧ texX0 w ≤ 63 := by
  unfold texX0
  have hn : (0 : α) ≤ w * (TEXTURE_SIZE : α) := by
    simp only [TEXTURE_SIZE]; push_cast; linarith
  rw [toInt_of_nonneg _ hn]
  constructor
  · exact Int.floor_nonneg.2 hn
  · have : ⌊w * (TEXTURE_SIZE : α)⌋ < 64 := by
      rw [Int.floor_lt]
      simp only [TEXTURE_SIZE]; push_cast; linarith
    omega

theorem texY_range (t : α) : 0 ≤ texY t ∧ texY t ≤ 63 := by
  unfold texY
  exact land_63_range _

theorem floorTex_range (c : α) : 0 ≤ floorTex c ∧ floorTex c ≤ 63 := by
  unfold floorTex
  exact land_63_range _

/-- C19: over exact arithmetic every texture sample index of `renderFrame`
is in `0 .. TEXTURE_SIZE * TEXTURE_SIZE - 1`: `texX` is in `0 .. 63` before and
after the mirroring, which is applied exactly when `side = 0` and
`rayDirX > 0`, or `side = 1` and `rayDirY < 0`; `texY` is in `0 .. 63` for
every value of `texPos`; and `floorTexX`, `floorTexY` are in `0 .. 63` for
every floor-plane coordinate, negative ones included. -/
theorem texture_indices_in_range (posX posY rayDirX rayDirY perp : α) (side : Int)
    (lh : Int) (k : Nat) (weight : α) :
    (0 ≤ texX0 (wallX posX posY rayDirX rayDirY perp side) ∧
        texX0 (wallX posX posY rayDirX rayDirY perp side) ≤ 63) ∧
      (texX (wallX posX posY rayDirX rayDirY perp side) rayDirX rayDirY side =
        if (side = 0 ∧ rayDirX > 0) ∨ (side = 1 ∧ rayDirY < 0)
        then 63 - texX0 (wallX posX posY rayDirX rayDirY perp side)
        else texX0 (wallX posX posY rayDirX rayDirY perp side)) ∧
      (0 ≤ texX (wallX posX posY rayDirX rayDirY perp side) rayDirX rayDirY side ∧
        texX (wallX posX posY rayDirX rayDirY perp side) rayDirX rayDirY side ≤ 63) ∧
      (0 ≤ texY (texPos lh k : α) ∧ texY (texPos lh k : α) ≤ 63) ∧
      (0 ≤ (TEXTURE_SIZE : Int) * texY (texPos lh k : α) +
          texX (wallX posX posY rayDirX rayDirY perp side) rayDirX rayDirY side ∧
        (TEXTURE_SIZE : Int) * texY (texPos lh k : α) +
          texX (wallX posX posY rayDirX rayDirY perp side) rayDirX rayDirY side <
            TEXTURE_SIZE * TEXTURE_SIZE) ∧
      (∀ c : α, 0 ≤ floorTex c ∧ floorTex c ≤ 63) ∧
      (0 ≤ (TEXTURE_SIZE : Int) *
            floorTex (currentFloor weight (wallX posX posY rayDirX rayDirY perp side) posY) +
          floorTex (currentFloor weight (wallX posX posY rayDirX rayDirY perp side) posX) ∧
        (TEXTURE_SIZE : Int) *
            floorTex (currentFloor weight (wallX posX posY rayDirX rayDirY perp side) posY) +
          floorTex (currentFloor weight (wallX posX posY rayDirX rayDirY perp side) posX) <
            TEXTURE_SIZE * TEXTURE_SIZE) := by
  obtain ⟨w0, w1⟩ := wallX_range posX posY rayDirX rayDirY perp side
  obtain ⟨a0, a1⟩ := texX0_range _ w0 w1
  have hmirror : texX (wallX posX posY rayDirX rayDirY perp side) rayDirX rayDirY side =
      if (side = 0 ∧ rayDirX > 0) ∨ (side = 1 ∧ rayDirY < 0)
      then 63 - texX0 (wallX posX posY rayDirX rayDirY perp side)
      else texX0 (wallX posX posY rayDirX rayDirY perp side) := by
    unfold texX
    simp only [TEXTURE_SIZE]
    split_ifs with h1 h2 h3 h4 h5 h6 <;> first | omega | (exfalso; tauto)
  have hx : 0 ≤ texX (wallX posX posY rayDirX rayDirY perp side) rayDirX rayDirY side ∧
      texX (wallX posX posY rayDirX rayDirY perp side) rayDirX rayDirY side ≤ 63 := by
    rw [hmirror]
    split_ifs <;> omega
  obtain ⟨y0, y1⟩ := texY_range (texPos lh k : α)
  obtain ⟨f0, f1⟩ :=
    floorTex_range (currentFloor weight (wallX posX posY rayDirX rayDirY perp side) posY)
  obtain ⟨g0, g1⟩ :=
    floorTex_range (currentFloor weight (wallX posX posY rayDirX rayDirY perp side) posX)
  refine ⟨⟨a0, a1⟩, hmirror, hx, ⟨y0, y1⟩, ?_, floorTex_range, ?_⟩
  · simp only [TEXTURE_SIZE]
    push_cast
    omega
  · simp only [TEXTURE_SIZE]
    push_cast
    omega

end TextureIndex

/-! ## The centre ray on the border grid -/

section CentreRay

variable {α : Type} [LinearOrderedField α] [FloorRing α]

/-- On a grid that is empty inside its occupied ring, a ray that only steps in
`+x` exits on the ring cell of its row, with `side = 0`. -/
theorem ddaLoop_eastward (g : Grid) (hr : ringOccupied g)
    (he : ∀ x y, inBounds x y → ¬ onRing x y → g x y = 0) :
    ∀ (fuel n : Nat) (s : DDA α) (a : α), s.sideDistX = Dist.fin a →
      s.sideDistY = Dist.inf → s.mapX + (n : Int) = MAP_WIDTH - 1 → 1 ≤ n → n ≤ fuel →
      1 ≤ s.mapX → 1 ≤ s.mapY → s.mapY ≤ MAP_HEIGHT - 2 →
      ∃ r, ddaLoop g 1 1 (Dist.fin 1) Dist.inf fuel s = some r ∧ r.1.mapX = MAP_WIDTH - 1 ∧
        r.1.mapY = s.mapY ∧ r.1.side = 0 := by
  intro fuel
  induction fuel with
  | zero => intro n s a _ _ _ h1 h2; omega
  | succ fuel ih =>
    intro n s a hX hY hn h1 h2 hx hy1 hy2
    simp only [MAP_WIDTH, MAP_HEIGHT] at hn hy2 ⊢
    have hstep : ddaStep 1 1 (Dist.fin 1) Dist.inf s =
        { s with sideDistX := Dist.fin (a + 1), mapX := s.mapX + 1, side := 0 } := by
      simp [ddaStep, hX, hY, Dist.lt, Dist.add]
    rw [ddaLoop, hstep]
    simp only
    by_cases hlast : n = 1
    · have hring : onRing (s.mapX + 1) s.mapY := by
        simp only [onRing, inBounds, MAP_WIDTH, MAP_HEIGHT]
        omega
      have ho := hr _ _ hring
      unfold occupied at ho
      rw [if_pos ho]
      exact ⟨_, rfl, by simp only; omega, rfl, rfl⟩
    · have hin : inBounds (s.mapX + 1) s.mapY := by
        simp only [inBounds, MAP_WIDTH, MAP_HEIGHT]
        omega
      have hnr : ¬ onRing (s.mapX + 1) s.mapY := by
        simp only [onRing, inBounds, MAP_WIDTH, MAP_HEIGHT]
        omega
      have h0 := he _ _ hin hnr
      rw [if_neg (by omega)]
      obtain ⟨r, e, r1, r2, r3⟩ := ih (n - 1)
        { s with sideDistX := Dist.fin (a + 1), mapX := s.mapX + 1, side := 0 } (a + 1) rfl hY
        (by simp only [MAP_WIDTH]; omega) (by omega) (by omega) (by simp only; omega) hy1
        (by simp only [MAP_HEIGHT]; omega)
      simp only [MAP_WIDTH] at r1
      exact ⟨(r.1, (s.mapX + 1, s.mapY) :: r.2), by rw [e]; rfl, r1, r2, r3⟩

theorem cameraX_centre : (cameraX (Int.tdiv WINDOW_WIDTH 2) : α) = 0 := by
  have h : Int.tdiv WINDOW_WIDTH 2 = 960 := by decide
  rw [h, cameraX]
  simp only [WINDOW_WIDTH]
  norm_num

/-- C13: on a grid that is empty except for its occupied outer ring, for a
player at `(px, py)` in an interior cell facing `(1, 0)` with camera plane
`(0, 0.66)`, the ray of the centre column `WINDOW_WIDTH / 2` has `cameraX = 0`
and direction `(1, 0)`; the DDA loop stops at `mapX = MAP_WIDTH - 1`,
`mapY = (int)py` with `side = 0`, and `perpWallDist = MAP_WIDTH - 1 - px`,
which is `47.5` for `px = 1.5`. -/
theorem centre_ray_hits_east_wall (g : Grid) (p : Player α) (hr : ringOccupied g)
    (he : ∀ x y, inBounds x y → ¬ onRing x y → g x y = 0)
    (hpos : 1 ≤ toInt p.posX ∧ toInt p.posX ≤ MAP_WIDTH - 2 ∧ 1 ≤ toInt p.posY ∧
      toInt p.posY ≤ MAP_HEIGHT - 2)
    (hdir : p.dirX = 1 ∧ p.dirY = 0) (hplane : p.planeX = 0 ∧ p.planeY = 66 / 100) :
    (cameraX (Int.tdiv WINDOW_WIDTH 2) : α) = 0 ∧
      rayDir p (Int.tdiv WINDOW_WIDTH 2) = (1, 0) ∧
      ∃ r, castRay g p.posX p.posY (rayDir p (Int.tdiv WINDOW_WIDTH 2)).1
          (rayDir p (Int.tdiv WINDOW_WIDTH 2)).2 (MAP_WIDTH + MAP_HEIGHT).toNat = some r ∧
        r.1.mapX = MAP_WIDTH - 1 ∧ r.1.mapY = toInt p.posY ∧ r.1.side = 0 ∧
        perpWallDist p.posX p.posY (rayDir p (Int.tdiv WINDOW_WIDTH 2)).1
          (rayDir p (Int.tdiv WINDOW_WIDTH 2)).2 r.1 = (MAP_WIDTH : α) - 1 - p.posX ∧
        (p.posX = 3 / 2 →
          perpWallDist p.posX p.posY (rayDir p (Int.tdiv WINDOW_WIDTH 2)).1
            (rayDir p (Int.tdiv WINDOW_WIDTH 2)).2 r.1 = 95 / 2) := by
  have hray : rayDir p (Int.tdiv WINDOW_WIDTH 2) = (1, 0) := by
    rw [rayDir, cameraX_centre, hdir.1, hdir.2, hplane.1, hplane.2]
    norm_num
  have hs1 : stepOf (1 : α) = 1 := by norm_num [stepOf]
  have hs0 : stepOf (0 : α) = 1 := by norm_num [stepOf]
  have hd1 : deltaDist (1 : α) = Dist.fin 1 := by norm_num [deltaDist]
  have hd0 : deltaDist (0 : α) = Dist.inf := by simp [deltaDist]
  refine ⟨cameraX_centre, hray, ?_⟩
  rw [hray]
  simp only [MAP_WIDTH, MAP_HEIGHT] at hpos
  obtain ⟨r, e, r1, r2, r3⟩ := ddaLoop_eastward g hr he 100 (49 - toInt p.posX).toNat
    (ddaInit p.posX p.posY 1 0) (((toInt p.posX : Int) : α) + 1 - p.posX)
    (by simp [ddaInit, sideDist0, hd1, Dist.scale]) (by simp [ddaInit, sideDist0, hd0, Dist.scale])
    (by simp only [ddaInit, MAP_WIDTH]; omega) (by omega) (by omega)
    (by simp only [ddaInit]; omega) (by simp only [ddaInit]; omega)
    (by simp only [ddaInit, MAP_HEIGHT]; omega)
  have hperp : perpWallDist p.posX p.posY 1 0 r.1 = (MAP_WIDTH : α) - 1 - p.posX := by
    have ht : Int.tdiv (1 - 1) 2 = 0 := by decide
    rw [perpWallDist, if_pos r3, hs1, ht, r1]
    simp only [MAP_WIDTH]
    push_cast
    ring
  refine ⟨r, ?_, r1, r2, r3, hperp, ?_⟩
  · rw [castRay, hs1, hs0, hd1, hd0]
    exact e
  · intro hx
    rw [hperp, hx]
    simp only [MAP_WIDTH]
    norm_num

end CentreRay

theorem centre_ray_hits_east_wall_witness :
    ringOccupied borderGrid ∧ (∀ x y, inBounds x y → ¬ onRing x y → borderGrid x y = 0) ∧
      (1 ≤ toInt (initPlayer : Player ℚ).posX ∧
        toInt (initPlayer : Player ℚ).posX ≤ MAP_WIDTH - 2 ∧
        1 ≤ toInt (initPlayer : Player ℚ).posY ∧
        toInt (initPlayer : Player ℚ).posY ≤ MAP_HEIGHT - 2) ∧
      ((initPlayer : Player ℚ).dirX = 1 ∧ (initPlayer : Player ℚ).dirY = 0) ∧
      ((initPlayer : Player ℚ).planeX = 0 ∧ (initPlayer : Player ℚ).planeY = 66 / 100) ∧
      ((cameraX (Int.tdiv WINDOW_WIDTH 2) : ℚ) = 0 ∧
        rayDir (initPlayer : Player ℚ) (Int.tdiv WINDOW_WIDTH 2) = (1, 0) ∧
        ∃ r, castRay borderGrid (initPlayer : Player ℚ).posX (initPlayer : Player ℚ).posY
            (rayDir (initPlayer : Player ℚ) (Int.tdiv WINDOW_WIDTH 2)).1
            (rayDir (initPlayer : Player ℚ) (Int.tdiv WINDOW_WIDTH 2)).2
            (MAP_WIDTH + MAP_HEIGHT).toNat = some r ∧
          r.1.mapX = MAP_WIDTH - 1 ∧ r.1.mapY = toInt (initPlayer : Player ℚ).posY ∧
          r.1.side = 0 ∧
          perpWallDist (initPlayer : Player ℚ).posX (initPlayer : Player ℚ).posY
            (rayDir (initPlayer : Player ℚ) (Int.tdiv WINDOW_WIDTH 2)).1
            (rayDir (initPlayer : Player ℚ) (Int.tdiv WINDOW_WIDTH 2)).2 r.1 =
              (MAP_WIDTH : ℚ) - 1 - (initPlayer : Player ℚ).posX ∧
          ((initPlayer : Player ℚ).posX = 3 / 2 →
            perpWallDist (initPlayer : Player ℚ).posX (initPlayer : Player ℚ).posY
              (rayDir (initPlayer : Player ℚ) (Int.tdiv WINDOW_WIDTH 2)).1
              (rayDir (initPlayer : Player ℚ) (Int.tdiv WINDOW_WIDTH 2)).2 r.1 = 95 / 2)) :=
  ⟨ringOccupied_borderGrid, fun x y _ h => by simp [borderGrid, h],
    by simp only [initPlayer, toInt_three_halves]; decide, ⟨rfl, rfl⟩, ⟨rfl, rfl⟩,
    centre_ray_hits_east_wall borderGrid (initPlayer : Player ℚ) ringOccupied_borderGrid
      (fun x y _ h => by simp [borderGrid, h])
      (by simp only [initPlayer, toInt_three_halves]; decide) ⟨rfl, rfl⟩ ⟨rfl, rfl⟩⟩

/-! ## The perpendicular wall distance -/

section PerpDist

variable {α : Type} [LinearOrderedField α] [FloorRing α]

theorem deltaDist_inf_iff (d : α) : deltaDist d = Dist.inf ↔ d = 0 := by
  unfold deltaDist
  split_ifs with h <;> simp [h]

theorem sideDist0_inf_iff (pos : α) (cell : Int) (d : α) :
    sideDist0 pos cell d = Dist.inf ↔ d = 0 := by
  unfold sideDist0
  by_cases h0 : d = 0
  · simp [h0, deltaDist, Dist.scale]
  · have hd : deltaDist d = Dist.fin |1 / d| := by simp [deltaDist, h0]
    simp only [hd, Dist.scale, h0, iff_false]
    split_ifs <;> simp

theorem Dist.lt_true_left (a b : Dist α) (h : a.lt b = true) : ∃ x, a = Dist.fin x := by
  cases a with
  | fin x => exact ⟨x, rfl⟩
  | inf => simp [Dist.lt] at h

theorem Dist.lt_inf_false (a : Dist α) (h : ¬ a.lt Dist.inf = true) : a = Dist.inf := by
  cases a with
  | fin x => simp [Dist.lt] at h
  | inf => rfl

theorem Dist.add_deltaDist_inf_iff (a : Dist α) (d : α) :
    a.add (deltaDist d) = Dist.inf ↔ (a = Dist.inf ∨ d = 0) := by
  by_cases h0 : d = 0
  · have hd : deltaDist d = Dist.inf := (deltaDist_inf_iff d).2 h0
    rw [hd]
    cases a <;> simp [Dist.add, h0]
  · have hd : deltaDist d = Dist.fin |1 / d| := by simp [deltaDist, h0]
    rw [hd]
    cases a <;> simp [Dist.add, h0]

theorem ddaInit_inv (posX posY rayDirX rayDirY : α) :
    ddaInv (toInt posX) (toInt posY) rayDirX rayDirY (ddaInit posX posY rayDirX rayDirY) := by
  refine ⟨fun _ => le_refl _, fun _ => le_refl _, fun _ => le_refl _, fun _ => le_refl _, ?_, ?_⟩
  · exact sideDist0_inf_iff _ _ _
  · exact sideDist0_inf_iff _ _ _

/-- One iteration keeps `ddaInv` and establishes `ddaStepped`. -/
theorem ddaStep_inv (x0 y0 : Int) (rayDirX rayDirY : α) (s : DDA α)
    (h : ddaInv x0 y0 rayDirX rayDirY s) :
    ddaInv x0 y0 rayDirX rayDirY
        (ddaStep (stepOf rayDirX) (stepOf rayDirY) (deltaDist rayDirX) (deltaDist rayDirY) s) ∧
      ddaStepped x0 y0 rayDirX rayDirY
        (ddaStep (stepOf rayDirX) (stepOf rayDirY) (deltaDist rayDirX) (deltaDist rayDirY) s) := by
  obtain ⟨h1, h2, h3, h4, h5, h6⟩ := h
  unfold ddaStep
  by_cases hlt : s.sideDistX.lt s.sideDistY = true
  · rw [if_pos hlt]
    obtain ⟨a, ha⟩ := Dist.lt_true_left _ _ hlt
    have hx0 : rayDirX ≠ 0 := by
      intro h0
      rw [h5.2 h0] at ha
      exact Dist.noConfusion ha
    have hnew : s.sideDistX.add (deltaDist rayDirX) = Dist.inf ↔ rayDirX = 0 := by
      rw [Dist.add_deltaDist_inf_iff, h5]
      exact or_self_iff
    constructor
    · refine ⟨?_, ?_, h3, h4, hnew, h6⟩
      · intro hneg
        have := h1 hneg
        simp only [stepOf, if_pos hneg]
        omega
      · intro hneg
        have := h2 hneg
        simp only [stepOf, if_neg hneg]
        omega
    · left
      refine ⟨rfl, hx0, ?_, ?_⟩
      · intro hneg
        have := h1 hneg
        simp only [stepOf, if_pos hneg]
        omega
      · intro hneg
        have := h2 hneg
        simp only [stepOf, if_neg hneg]
        omega
  · rw [if_neg hlt]
    have hzero : rayDirY = 0 → rayDirX = 0 := by
      intro h0
      rw [h6.2 h0] at hlt
      exact h5.1 (Dist.lt_inf_false _ hlt)
    have hnew : s.sideDistY.add (deltaDist rayDirY) = Dist.inf ↔ rayDirY = 0 := by
      rw [Dist.add_deltaDist_inf_iff, h6]
      exact or_self_iff
    constructor
    · refine ⟨h1, h2, ?_, ?_, h5, hnew⟩
      · intro hneg
        have := h3 hneg
        simp only [stepOf, if_pos hneg]
        omega
      · intro hneg
        have := h4 hneg
        simp only [stepOf, if_neg hneg]
        omega
    · right
      refine ⟨rfl, hzero, ?_, ?_⟩
      · intro hneg
        have := h3 hneg
        simp only [stepOf, if_pos hneg]
        omega
      · intro hneg
        have := h4 hneg
        simp only [stepOf, if_neg hneg]
        omega

/-- The locals on exit from the loop satisfy `ddaStepped`. -/
theorem ddaLoop_stepped (g : Grid) (x0 y0 : Int) (rayDirX rayDirY : α) :
    ∀ (fuel : Nat) (s : DDA α) (r : DDA α × List (Int × Int)),
      ddaInv x0 y0 rayDirX rayDirY s →
      ddaLoop g (stepOf rayDirX) (stepOf rayDirY) (deltaDist rayDirX) (deltaDist rayDirY)
        fuel s = some r →
      ddaStepped x0 y0 rayDirX rayDirY r.1 := by
  intro fuel
  induction fuel with
  | zero => intro s r _ h; simp [ddaLoop] at h
  | succ fuel ih =>
    intro s r hs h
    obtain ⟨hi, hp⟩ := ddaStep_inv x0 y0 rayDirX rayDirY s hs
    rw [ddaLoop] at h
    split_ifs at h with hhit
    · simp only [Option.some.injEq] at h
      rw [← h]
      exact hp
    · rw [Option.map_eq_some'] at h
      obtain ⟨r', hr', rfl⟩ := h
      exact ih _ r' hi hr'

end PerpDist

section PerpDistPositive

variable {α : Type} [LinearOrderedField α] [FloorRing α]

/-- After an iteration, the perpendicular distance is positive when the
position lies strictly inside its start cell `(x0, y0)`. -/
theorem perpWallDist_pos_of_stepped (posX posY rayDirX rayDirY : α) (x0 y0 : Int) (s : DDA α)
    (hx : (x0 : α) < posX ∧ posX < (x0 : α) + 1) (hy : (y0 : α) < posY ∧ posY < (y0 : α) + 1)
    (hd : rayDirX ≠ 0 ∨ rayDirY ≠ 0) (hs : ddaStepped x0 y0 rayDirX rayDirY s) :
    0 < perpWallDist posX posY rayDirX rayDirY s := by
  have key : ∀ (pos d : α) (c0 m : Int), (c0 : α) < pos ∧ pos < (c0 : α) + 1 → d ≠ 0 →
      (d < 0 → m ≤ c0 - 1) → (¬ d < 0 → c0 + 1 ≤ m) →
      0 < ((m : α) - pos + ((Int.tdiv (1 - stepOf d) 2 : Int) : α)) / d := by
    intro pos d c0 m hpos hd0 hneg hnn
    by_cases hlt : d < 0
    · have hm : (m : α) ≤ (c0 : α) - 1 := by exact_mod_cast hneg hlt
      have ht : Int.tdiv (1 - (-1)) 2 = 1 := by decide
      simp only [stepOf, if_pos hlt, ht]
      apply div_pos_of_neg_of_neg _ hlt
      push_cast
      linarith [hpos.1]
    · have hm : (c0 : α) + 1 ≤ (m : α) := by exact_mod_cast hnn hlt
      have ht : Int.tdiv (1 - 1) 2 = 0 := by decide
      have hpos' : 0 < d := lt_of_le_of_ne (not_lt.1 hlt) (Ne.symm hd0)
      simp only [stepOf, if_neg hlt, ht]
      apply div_pos _ hpos'
      push_cast
      linarith [hpos.2]
  rcases hs with ⟨s0, hx0, a, b⟩ | ⟨s1, hz, a, b⟩
  · rw [perpWallDist, if_pos s0]
    exact key posX rayDirX x0 s.mapX hx hx0 a b
  · have hy0 : rayDirY ≠ 0 := by
      intro h0
      rcases hd with h | h
      · exact h (hz h0)
      · exact h h0
    rw [perpWallDist, if_neg (by rw [s1]; decide)]
    exact key posY rayDirY y0 s.mapY hy hy0 a b

/-- A non-integral coordinate whose cell index is in `1 .. 48` lies strictly
inside its cell. -/
theorem strictly_inside_cell (x : α) (h1 : 1 ≤ toInt x) (h2 : toInt x ≤ 48)
    (hn : ∀ n : Int, (n : α) ≠ x) : ((toInt x : Int) : α) < x ∧ x < ((toInt x : Int) : α) + 1 := by
  obtain ⟨hx1, -⟩ := of_toInt_interior x h1 h2
  have h0 : (0 : α) ≤ x := by linarith
  rw [toInt_of_nonneg x h0]
  exact ⟨lt_of_le_of_ne (Int.floor_le x) (hn _), Int.lt_floor_add_one x⟩

/-- C21: for every grid with an occupied outer ring, every player position in
an empty cell whose coordinates `posX` and `posY` are both non-integral, and
every non-zero ray direction, the DDA loop exits and the `perpWallDist`
computed from its final locals is strictly positive, hence not zero: the
divisions `WINDOW_HEIGHT / perpWallDist` and `currentDist / perpWallDist` have
a non-zero divisor. The same holds of the locals of any exit of the loop,
whatever the iteration bound. -/
theorem perpWallDist_positive (g : Grid) (posX posY rayDirX rayDirY : α)
    (hr : ringOccupied g) (hp : inEmptyCell g posX posY) (hnx : ∀ n : Int, (n : α) ≠ posX)
    (hny : ∀ n : Int, (n : α) ≠ posY) (hd : rayDirX ≠ 0 ∨ rayDirY ≠ 0) :
    (∃ r, castRay g posX posY rayDirX rayDirY (MAP_WIDTH + MAP_HEIGHT).toNat = some r ∧
        0 < perpWallDist posX posY rayDirX rayDirY r.1 ∧
        perpWallDist posX posY rayDirX rayDirY r.1 ≠ 0) ∧
      ∀ (fuel : Nat) (r : DDA α × List (Int × Int)),
        castRay g posX posY rayDirX rayDirY fuel = some r →
        0 < perpWallDist posX posY rayDirX rayDirY r.1 := by
  obtain ⟨i1, i2, i3, i4⟩ := interior_of_empty g hr _ _ hp.1 (le_of_eq hp.2)
  have hx := strictly_inside_cell posX i1 i2 hnx
  have hy := strictly_inside_cell posY i3 i4 hny
  have hall : ∀ (fuel : Nat) (r : DDA α × List (Int × Int)),
      castRay g posX posY rayDirX rayDirY fuel = some r →
      0 < perpWallDist posX posY rayDirX rayDirY r.1 := by
    intro fuel r hcast
    have hs := ddaLoop_stepped g (toInt posX) (toInt posY) rayDirX rayDirY fuel
      (ddaInit posX posY rayDirX rayDirY) r (ddaInit_inv posX posY rayDirX rayDirY) hcast
    exact perpWallDist_pos_of_stepped posX posY rayDirX rayDirY _ _ r.1 hx hy hd hs
  obtain ⟨r, e, -⟩ := castRay_exits g hr posX posY rayDirX rayDirY i1 i2 i3 i4
  exact ⟨⟨r, e, hall _ r e, ne_of_gt (hall _ r e)⟩, hall⟩

end PerpDistPositive

theorem three_halves_not_integer (n : Int) : (n : ℚ) ≠ 3 / 2 := by
  intro h
  have h2 : ((2 * n : Int) : ℚ) = ((3 : Int) : ℚ) := by
    push_cast
    linarith
  have h3 : 2 * n = 3 := by exact_mod_cast h2
  omega

theorem perpWallDist_positive_witness :
    ringOccupied borderGrid ∧ inEmptyCell borderGrid (3 / 2 : ℚ) (3 / 2 : ℚ) ∧
      (∀ n : Int, (n : ℚ) ≠ 3 / 2) ∧ (∀ n : Int, (n : ℚ) ≠ 3 / 2) ∧
      ((1 : ℚ) ≠ 0 ∨ (0 : ℚ) ≠ 0) ∧
      ((∃ r, castRay borderGrid (3 / 2 : ℚ) (3 / 2) 1 0 (MAP_WIDTH + MAP_HEIGHT).toNat = some r ∧
          0 < perpWallDist (3 / 2 : ℚ) (3 / 2) 1 0 r.1 ∧
          perpWallDist (3 / 2 : ℚ) (3 / 2) 1 0 r.1 ≠ 0) ∧
        ∀ (fuel : Nat) (r : DDA ℚ × List (Int × Int)),
          castRay borderGrid (3 / 2 : ℚ) (3 / 2) 1 0 fuel = some r →
          0 < perpWallDist (3 / 2 : ℚ) (3 / 2) 1 0 r.1) :=
  ⟨ringOccupied_borderGrid, initPlayer_inEmptyCell, three_halves_not_integer,
    three_halves_not_integer, Or.inl one_ne_zero,
    perpWallDist_positive borderGrid (3 / 2 : ℚ) (3 / 2) 1 0 ringOccupied_borderGrid
      initPlayer_inEmptyCell three_halves_not_integer three_halves_not_integer
      (Or.inl one_ne_zero)⟩

/-! ## A frame that leaves the grid -/

end RFlash
